import Mathlib

/-!
Shallow embedding of the `gdrive_uploader` repository
(`src/gdrive_uploader/core/drive_api.py`,
`src/gdrive_uploader/core/folder_uploader.py`,
`src/gdrive_uploader/cli/upload_all.py`) together with theorems settling
the frozen claims about its specification.

The local file system, the remote Drive service and the md5 digest are
external effects; they are embedded as explicit parameters (a `FileSystem`
record, oracle functions for remote responses, and an abstract digest
function `h : String → String`).  Every Python function named in a claim is
translated line by line into a Lean definition of the same name.
-/

namespace GDriveSpec

/-! ## File-system model

`folder_uploader.py` touches the file system only through `os.path.abspath`,
`os.path.exists`, `os.path.getmtime`, `os.path.basename`, `os.listdir`,
`os.path.isdir` and a folder-size helper.  A `FileSystem` packages those
primitives; `mtime` is the decimal rendering `str(os.path.getmtime(p))`
that Python interpolates into the hash input. -/
structure FileSystem where
  abspath : String → String
  pathExists : String → Bool
  mtime : String → String
  basename : String → String
  isdir : String → Bool
  listdir : String → List String
  folderSize : String → Nat

/-- `os.path.join(dir, item)` for the single use in `get_folders_to_upload`. -/
def joinPath (dir item : String) : String := dir ++ "/" ++ item

/-! ## Folder fingerprint (`generate_folder_hash`, folder_uploader.py:34-49) -/

/-- The pure digest step of `generate_folder_hash`:
`hashlib.md5(f"{folder_path}_{folder_mtime}".encode()).hexdigest()`,
with the md5 digest abstracted as a function `h`. -/
def generate_folder_hash_core (h : String → String) (absPath mtimeStr : String) : String :=
  h (absPath ++ "_" ++ mtimeStr)

/-- `generate_folder_hash(folder_path)`: resolves the absolute path, raises
`ValueError` when the folder does not exist (modelled as `.error`), then
digests `f"{folder_path}_{folder_mtime}"`. -/
def generate_folder_hash (h : String → String) (fs : FileSystem) (path : String) :
    Except String String :=
  let ap := fs.abspath path
  if fs.pathExists ap then
    Except.ok (generate_folder_hash_core h ap (fs.mtime ap))
  else
    Except.error ("Folder does not exist: " ++ ap)

/-! ## Idempotency ledger (`uploaded_folders.csv`) -/

/-- One row of `data/uploaded_folders.csv`. -/
structure LedgerRow where
  folder_path : String
  folder_name : String
  folder_hash : String
  drive_folder_id : String
  upload_time : String
deriving DecidableEq, Repr

/-- State of the persisted CSV file: absent, present but unparsable
(`pd.read_csv` raises), or a parsed table. -/
inductive LedgerFile where
  | missing : LedgerFile
  | corrupt : LedgerFile
  | table : List LedgerRow → LedgerFile
deriving DecidableEq, Repr

/-- `pd.read_csv(UPLOADS_CSV)`: succeeds only on a parsable table. -/
def read_csv : LedgerFile → Except String (List LedgerRow)
  | LedgerFile.missing => Except.error "file not found"
  | LedgerFile.corrupt => Except.error "parse error"
  | LedgerFile.table rows => Except.ok rows

/-- `is_folder_uploaded(folder_path)` (folder_uploader.py:52-68).
Returns the boolean result together with a flag recording whether the
catch-all handler fired (the printed warning).  The guard
`os.path.exists(UPLOADS_CSV)` runs before the `try` block; inside it the
hash computation and the CSV parse may both raise and are both caught,
yielding `False` plus a warning. -/
def is_folder_uploaded (h : String → String) (fs : FileSystem) (lf : LedgerFile)
    (path : String) : Bool × Bool :=
  match lf with
  | LedgerFile.missing => (false, false)
  | _ =>
    match generate_folder_hash h fs path with
    | Except.error _ => (false, true)
    | Except.ok fh =>
      match read_csv lf with
      | Except.error _ => (false, true)
      | Except.ok rows => (rows.any (fun r => r.folder_hash == fh), false)

/-- `record_folder_upload(folder_path, drive_folder_id)`
(folder_uploader.py:71-111).  `now` stands for the formatted
`datetime.datetime.now()` string.  Returns the resulting ledger file and
the boolean the Python function returns; any raised exception inside the
`try` is caught and yields `False` with the file unchanged. -/
def record_folder_upload (h : String → String) (fs : FileSystem) (lf : LedgerFile)
    (path driveFolderId now : String) : LedgerFile × Bool :=
  match generate_folder_hash h fs path with
  | Except.error _ => (lf, false)
  | Except.ok fh =>
    let ap := fs.abspath path
    let newRow : LedgerRow :=
      { folder_path := ap, folder_name := fs.basename ap, folder_hash := fh
        drive_folder_id := driveFolderId, upload_time := now }
    match lf with
    | LedgerFile.missing => (LedgerFile.table [newRow], true)
    | LedgerFile.corrupt => (lf, false)
    | LedgerFile.table rows =>
      if rows.any (fun r => r.folder_hash == fh) then
        (LedgerFile.table (rows.map (fun r =>
          if r.folder_hash == fh then
            { r with drive_folder_id := driveFolderId, upload_time := now }
          else r)), true)
      else
        (LedgerFile.table (rows ++ [newRow]), true)

/-! ## Folder selection (`get_folders_to_upload`, cli/upload_all.py:32-55) -/

/-- The dictionaries `{'path': …, 'name': …, 'size': …}` built per folder. -/
structure FolderInfo where
  path : String
  name : String
  size : Nat
deriving DecidableEq, Repr

/-- `get_folders_to_upload(to_upload_dir, force)`: lists the staging
directory, keeps directories, and (unless `force`) drops folders for which
`is_folder_uploaded` holds. -/
def get_folders_to_upload (h : String → String) (fs : FileSystem) (lf : LedgerFile)
    (dir : String) (force : Bool) : List FolderInfo :=
  (fs.listdir dir).filterMap (fun item =>
    let itemPath := joinPath dir item
    if fs.isdir itemPath then
      if force || !(is_folder_uploaded h fs lf itemPath).1 then
        some { path := itemPath, name := item, size := fs.folderSize itemPath }
      else none
    else none)

/-- Size order used by `folders.sort(key=lambda x: x['size'])`. -/
def sizeLe (a b : FolderInfo) : Prop := a.size ≤ b.size

instance : DecidableRel sizeLe := fun a b => inferInstanceAs (Decidable (a.size ≤ b.size))

/-- The sequence of folder paths `upload_all_folders` hands to
`upload_folder` (cli/upload_all.py:73-120): the selected folders, sorted by
size ascending.  Remote create/upload calls for a folder happen only inside
that per-folder `upload_folder` invocation. -/
def upload_all_processed (h : String → String) (fs : FileSystem) (lf : LedgerFile)
    (dir : String) (force : Bool) : List String :=
  ((get_folders_to_upload h fs lf dir force).insertionSort sizeLe).map (fun f => f.path)

/-! ## Remote Drive store and `find_or_create_folder` (drive_api.py:66-105)

The remote store is a list of objects; `service.files().list(q=…)` filters
it.  Creating an object always succeeds server-side and appends a fresh
object (the Drive API allows several objects of the same name under one
parent), with fresh ids drawn from a counter. -/

structure RemoteObject where
  rid : String
  name : String
  parent : Option String
  isFolder : Bool
  trashed : Bool
deriving DecidableEq, Repr

/-- `f"{parent_id}"`: Python renders `None` as the string `"None"`. -/
def optStr : Option String → String
  | some s => s
  | none => "None"

/-- The module-level `folder_cache` dictionary plus the service-side store
and the id counter for fresh remote ids. -/
structure DriveState where
  cache : List (String × String)
  store : List RemoteObject
  nextId : Nat
deriving DecidableEq, Repr

/-- `cache_key = f"{folder_name}_{parent_id}"` (drive_api.py:72). -/
def cacheKey (folderName : String) (parentId : Option String) : String :=
  folderName ++ "_" ++ optStr parentId

/-- Dictionary lookup in `folder_cache`. -/
def lookupCache (c : List (String × String)) (k : String) : Option String :=
  (c.find? (fun e => e.1 == k)).map (fun e => e.2)

/-- The folder query of `find_or_create_folder`:
`name='…' and mimeType='…folder' [and '…' in parents] and trashed=false`.
Without a `parent_id` the query does not constrain parents. -/
def folderQuery (store : List RemoteObject) (folderName : String)
    (parentId : Option String) : List RemoteObject :=
  store.filter (fun o =>
    o.name == folderName && o.isFolder && !o.trashed &&
      (match parentId with
       | some p => o.parent == some p
       | none => true))

/-- Fresh remote id for the `n`-th object created in a run. -/
def freshId (n : Nat) : String := "rid" ++ toString n

/-- `service.files().create(body=folder_metadata).execute()` for a folder:
always succeeds and appends a new folder object. -/
def create_folder_api (st : DriveState) (folderName : String)
    (parentId : Option String) : String × DriveState :=
  let fid := freshId st.nextId
  (fid, { st with
            store := st.store ++ [⟨fid, folderName, parentId, true, false⟩]
            nextId := st.nextId + 1 })

/-- `find_or_create_folder(service, folder_name, parent_id)`
(drive_api.py:69-105): consult the cache under `cache_key`; on a miss run
the folder query, take `items[0]` when non-empty, else create; cache the
resulting id. -/
def find_or_create_folder (st : DriveState) (folderName : String)
    (parentId : Option String) : String × DriveState :=
  let key := cacheKey folderName parentId
  match lookupCache st.cache key with
  | some fid => (fid, st)
  | none =>
    match (folderQuery st.store folderName parentId).head? with
    | some o => (o.rid, { st with cache := st.cache ++ [(key, o.rid)] })
    | none =>
      let (fid, st') := create_folder_api st folderName parentId
      (fid, { st' with cache := st'.cache ++ [(key, fid)] })

/-- `batch_create_folders(service, folders, parent_id)` (drive_api.py:197-234).
For at most 5 names every entry goes through `find_or_create_folder`.
For more, each name is first created directly with
`service.files().create` — `createFails name` tells whether that call
raises — falling back to `find_or_create_folder` on an exception.  The
batching in fifties only slices the same one-by-one loop and is dropped.
Returns the `created_folders` association list and the final state. -/
def batchStepSmall (parentId : Option String)
    (acc : List (String × String) × DriveState) (folderName : String) :
    List (String × String) × DriveState :=
  let r := find_or_create_folder acc.2 folderName parentId
  (acc.1 ++ [(folderName, r.1)], r.2)

def batchStepLarge (parentId : Option String) (createFails : String → Bool)
    (acc : List (String × String) × DriveState) (folderName : String) :
    List (String × String) × DriveState :=
  if createFails folderName then
    let r := find_or_create_folder acc.2 folderName parentId
    (acc.1 ++ [(folderName, r.1)], r.2)
  else
    let r := create_folder_api acc.2 folderName parentId
    (acc.1 ++ [(folderName, r.1)], r.2)

def batch_create_folders (st : DriveState) (folders : List String)
    (parentId : Option String) (createFails : String → Bool) :
    List (String × String) × DriveState :=
  if folders.length ≤ 5 then
    folders.foldl (batchStepSmall parentId) ([], st)
  else
    folders.foldl (batchStepLarge parentId createFails) ([], st)

/-! ## `check_file_exists` and the `upload_file` retry machine
(drive_api.py:108-194)

`file.execute()` and the in-retry existence probes talk to a remote whose
state may drift (an attempt can partially succeed), so they are embedded as
oracles: `attempts k` is the response to the execute call made while
`retry_count = k`, and `probe k` is the result of the
`check_file_exists` call made after `retry_count` was bumped to `k`. -/

/-- `check_file_exists(service, file_name, parent_id)` (drive_api.py:108-113):
`items[0]['id']` of the non-trashed name/parent query, or absent.  The
query has no mimeType clause, so folders match too. -/
def check_file_exists (store : List RemoteObject) (fileName parentId : String) :
    Option String :=
  ((store.filter (fun o =>
      o.name == fileName && o.parent == some parentId && !o.trashed)).head?).map
    (fun o => o.rid)

/-- Outcome of one `file.execute()` attempt. -/
inductive ExecResult where
  | ok : String → ExecResult
  | err : Nat → ExecResult
deriving DecidableEq, Repr

/-- `error.resp.status in [429, 500, 502, 503, 504]` (drive_api.py:172). -/
def isTransientStatus (s : Nat) : Bool :=
  s == 429 || s == 500 || s == 502 || s == 503 || s == 504

/-- How one `upload_file` call ends. -/
inductive UploadResult where
  | alreadyExists : String → UploadResult
  | uploaded : String → UploadResult
  | foundByProbe : String → UploadResult
  | fatalError : Nat → UploadResult
  | exhausted : UploadResult
deriving DecidableEq, Repr

/-- A returned id counts as success; `fatalError` and `exhausted` are the
raised exceptions of the Python code, caught by the per-file callers. -/
def UploadResult.isSuccess : UploadResult → Bool
  | UploadResult.alreadyExists _ => true
  | UploadResult.uploaded _ => true
  | UploadResult.foundByProbe _ => true
  | UploadResult.fatalError _ => false
  | UploadResult.exhausted => false

/-- Observable trace of one `upload_file` call: its outcome, the
`time.sleep` durations (`min(2 ** retry_count, 60)`), and how many
`file.execute()` calls (remote create attempts) were made. -/
structure UploadTrace where
  result : UploadResult
  waits : List Nat
  execCalls : Nat
deriving DecidableEq, Repr

/-- The `while response is None and retry_count < max_retries` loop of
`upload_file` (drive_api.py:163-194).  `rc` is `retry_count`; `fuel` keeps
the loop-guard slack `max_retries - retry_count`.  On a transient status
the code bumps `retry_count`, sleeps `min(2 ** retry_count, 60)`, re-probes
and returns the probed id when found; a non-transient status re-raises; an
empty guard raises the exhaustion exception. -/
def executeLoop (attempts : Nat → ExecResult) (probe : Nat → Option String) :
    Nat → Nat → UploadTrace
  | _, 0 => ⟨UploadResult.exhausted, [], 0⟩
  | rc, fuel + 1 =>
    match attempts rc with
    | ExecResult.ok fid => ⟨UploadResult.uploaded fid, [], 1⟩
    | ExecResult.err s =>
      if isTransientStatus s then
        let w := min (2 ^ (rc + 1)) 60
        match probe (rc + 1) with
        | some fid => ⟨UploadResult.foundByProbe fid, [w], 1⟩
        | none =>
          let t := executeLoop attempts probe (rc + 1) fuel
          ⟨t.result, w :: t.waits, t.execCalls + 1⟩
      else ⟨UploadResult.fatalError s, [], 1⟩

/-- The retry loop entered with `retry_count = 0` and `max_retries = 5`. -/
def executeWithRetry (attempts : Nat → ExecResult) (probe : Nat → Option String) :
    UploadTrace :=
  executeLoop attempts probe 0 5

/-- `upload_file(service, file_path, parent_id)` (drive_api.py:116-194):
the up-front `check_file_exists` returns early with the existing id before
any media object or create request is built; otherwise the retry loop
runs.  Chunk-size selection only tunes throughput and leaves no trace. -/
def upload_file (store : List RemoteObject) (fileName parentId : String)
    (attempts : Nat → ExecResult) (probe : Nat → Option String) : UploadTrace :=
  match check_file_exists store fileName parentId with
  | some fid => ⟨UploadResult.alreadyExists fid, [], 0⟩
  | none => executeWithRetry attempts probe

/-! ## Hierarchy builder (`upload_folder`, folder_uploader.py:114-209)

Relative paths are embedded as their non-empty segment lists; the sentinel
root path `'.'` is the empty list, and `os.path.dirname(rel_path) or '.'`
is `dropLast`.  Python's sort key `rel_path.count(os.sep)` is the segment
count minus one, so sorting by segment count is the same order. -/

/-- One entry of `folder_items`: the claims only need its relative path. -/
structure DirEntry where
  relPath : List String
deriving DecidableEq, Repr

/-- `item['parent_path'] = os.path.dirname(rel_path) or '.'`. -/
def DirEntry.parentKey (e : DirEntry) : List String := e.relPath.dropLast

/-- Sort order of `folder_items.sort(key=lambda x: x['rel_path'].count(os.sep))`. -/
def depthLe (a b : DirEntry) : Prop := a.relPath.length ≤ b.relPath.length

instance : DecidableRel depthLe := fun a b =>
  inferInstanceAs (Decidable (a.relPath.length ≤ b.relPath.length))

instance : IsTotal DirEntry depthLe :=
  ⟨fun a b => Nat.le_total a.relPath.length b.relPath.length⟩

instance : IsTrans DirEntry depthLe :=
  ⟨fun _ _ _ hab hbc => Nat.le_trans hab hbc⟩

/-- One step of building the `folder_groups` dictionary
(folder_uploader.py:155-160): append to the existing group for
`parent_path`, or append a new group at the end (Python dicts keep
insertion order). -/
def addToGroups (gs : List (List String × List DirEntry)) (e : DirEntry) :
    List (List String × List DirEntry) :=
  match gs with
  | [] => [(e.parentKey, [e])]
  | g :: rest =>
    if g.1 = e.parentKey then (g.1, g.2 ++ [e]) :: rest
    else g :: addToGroups rest e

/-- The whole `folder_groups` dictionary, built over the sorted entry list. -/
def groupByParent (l : List DirEntry) : List (List String × List DirEntry) :=
  l.foldl addToGroups []

/-- The `folder_ids` dictionary, keyed by relative path. -/
abbrev PathMap := List (List String × String)

/-- `folder_ids.get(path)`. -/
def lookupPath (m : PathMap) (k : List String) : Option String :=
  (m.find? (fun e => e.1 == k)).map (fun e => e.2)

/-- `folder_ids[key] = value` (dictionary assignment: overwrite the
binding when the key is present, append it otherwise). -/
def insertPath : PathMap → List String → String → PathMap
  | [], k, v => [(k, v)]
  | e :: rest, k, v => if e.1 = k then (k, v) :: rest else e :: insertPath rest k v

/-- Observable record of one remote folder creation performed for an entry
of a group: which parent id the builder passed to `batch_create_folders`
and whether it came from the root-substitution fallback. -/
structure HierEvent where
  relPath : List String
  parentIdUsed : String
  usedRootFallback : Bool
deriving DecidableEq, Repr

/-- One entry of a group being created: when `batch_create_folders`
reported an id for it (`create` is `some`), store it in `folder_ids` and
record the creation event; otherwise only warn (no id stored). -/
def groupStep (create : List String → String → Option String) (pid : String)
    (fb : Bool) (acc : PathMap × List HierEvent) (e : DirEntry) :
    PathMap × List HierEvent :=
  match create e.relPath pid with
  | some fid => (insertPath acc.1 e.relPath fid, acc.2 ++ [⟨e.relPath, pid, fb⟩])
  | none => acc

/-- Processing of one `folder_groups` item (folder_uploader.py:173-195):
resolve `parent_id = folder_ids.get(parent_path)`, substituting the run's
root folder id with a warning when absent, then create the group's folders
(the per-entry oracle `create` is `None` when the entry is missing from
`batch_create_folders`' result) and store the new ids. -/
def processGroup (rootId : String) (create : List String → String → Option String)
    (m : PathMap) (g : List String × List DirEntry) : PathMap × List HierEvent :=
  let looked := lookupPath m g.1
  let pid := match looked with
    | some p => p
    | none => rootId
  let fb := looked.isNone
  g.2.foldl (groupStep create pid fb) (m, [])

/-- One iteration of the outer loop over `folder_groups.items()`. -/
def hierStep (rootId : String) (create : List String → String → Option String)
    (acc : PathMap × List HierEvent) (g : List String × List DirEntry) :
    PathMap × List HierEvent :=
  let r := processGroup rootId create acc.1 g
  (r.1, acc.2 ++ r.2)

/-- The folder-creation phase of `upload_folder`
(folder_uploader.py:151-195): sort `folder_items` by depth, group by
parent path, seed `folder_ids = {'.': folder_id}` and process the groups
in order.  Returns the final path map and all creation events. -/
def buildHierarchy (rootId : String) (create : List String → String → Option String)
    (entries : List DirEntry) : PathMap × List HierEvent :=
  let sorted := entries.insertionSort depthLe
  let groups := groupByParent sorted
  groups.foldl (hierStep rootId create) ([([], rootId)], [])

/-- Order of group keys by key depth, the order in which
`folder_groups`' keys appear when the entries were depth-sorted. -/
def keyLenLe (g g' : List String × List DirEntry) : Prop :=
  g.1.length ≤ g'.1.length

/-! ## Parallel transfer engine (folder_uploader.py:213-265,
drive_api.py:237-295)

Per-file upload outcomes inside the worker pool, the synchronous retry
outside the pool, and the sequential fallback are oracles
`u`, `r`, `s : FileItem → UploadResult` standing for the `upload_file`
calls those paths make. -/

/-- One entry of `file_items`; `parentKey` is
`os.path.dirname(rel_path) or '.'` as segment lists. -/
structure FileItem where
  relPath : List String
  size : Nat
deriving DecidableEq, Repr

def FileItem.parentKey (f : FileItem) : List String := f.relPath.dropLast

/-- Final per-file outcome recorded by the batch loop. -/
inductive FileOutcome where
  | parallelOk : FileOutcome
  | retryOk : FileOutcome
  | retryFailed : FileOutcome
  | parentMissing : FileOutcome
  | seqOk : FileOutcome
  | seqFailed : FileOutcome
  | seqParentMissing : FileOutcome
deriving DecidableEq, Repr

/-- Slicing worker: `fuel` bounds the number of slices (the list length is
always enough fuel for a positive slice size). -/
def chunksAux : Nat → Nat → List α → List (List α)
  | _, _, [] => []
  | 0, _, _ :: _ => []
  | fuel + 1, n, x :: xs => (x :: xs).take n :: chunksAux fuel n ((x :: xs).drop n)

/-- `file_items[i:i+batch_size]` slicing (folder_uploader.py:215-216). -/
def chunks (n : Nat) (l : List α) : List (List α) := chunksAux l.length n l

/-- One batch through `parallel_upload_files` plus the per-failure
synchronous retry (folder_uploader.py:219-244, drive_api.py:241-295):
each worker resolves its parent id from `folder_ids` (a miss is a per-file
failure), uploads, and the driver retries each failed file once with the
same lookup.  One result per submitted file. -/
def processParallelBatch (folderIds : PathMap) (u r : FileItem → UploadResult)
    (batch : List FileItem) : List (FileItem × FileOutcome) :=
  batch.map (fun it =>
    match lookupPath folderIds it.parentKey with
    | none => (it, FileOutcome.parentMissing)
    | some _ =>
      if (u it).isSuccess then (it, FileOutcome.parallelOk)
      else if (r it).isSuccess then (it, FileOutcome.retryOk)
      else (it, FileOutcome.retryFailed))

/-- The sequential fallback for one batch (folder_uploader.py:245-265):
upload every file of the batch one by one, skipping files whose parent id
is missing and catching per-file upload errors. -/
def processSeqBatch (folderIds : PathMap) (s : FileItem → UploadResult)
    (batch : List FileItem) : List (FileItem × FileOutcome) :=
  batch.map (fun it =>
    match lookupPath folderIds it.parentKey with
    | none => (it, FileOutcome.seqParentMissing)
    | some _ =>
      if (s it).isSuccess then (it, FileOutcome.seqOk)
      else (it, FileOutcome.seqFailed))

/-- The batch loop body: batch number `i` takes the parallel path, or —
when `parallel_upload_files` itself raises for that batch, `raises i` —
the sequential fallback. -/
def processBatch (folderIds : PathMap) (u r s : FileItem → UploadResult)
    (raises : Nat → Bool) (i : Nat) (batch : List FileItem) :
    List (FileItem × FileOutcome) :=
  if raises i then processSeqBatch folderIds s batch
  else processParallelBatch folderIds u r batch

/-- The batch loop from batch number `i` onward. -/
def processBatchesFrom (folderIds : PathMap) (u r s : FileItem → UploadResult)
    (raises : Nat → Bool) : Nat → List (List FileItem) →
    List (FileItem × FileOutcome)
  | _, [] => []
  | i, b :: bs =>
    processBatch folderIds u r s raises i b ++
      processBatchesFrom folderIds u r s raises (i + 1) bs

/-- The whole file phase of `upload_folder` (folder_uploader.py:213-265):
slice `file_items` into batches and run the batch loop. -/
def processAllBatches (folderIds : PathMap) (batchSize : Nat)
    (u r s : FileItem → UploadResult) (raises : Nat → Bool)
    (fileItems : List FileItem) : List (FileItem × FileOutcome) :=
  processBatchesFrom folderIds u r s raises 0 (chunks batchSize fileItems)

/-- What one batch-creation step must preserve about the target name. -/
def PreservesName (name : String) (pid : Option String)
    (step : (List (String × String) × DriveState) → String →
      List (String × String) × DriveState) : Prop :=
  ∀ acc n', n' ≠ name →
    folderQuery ((step acc n').2).store name pid = folderQuery acc.2.store name pid ∧
    lookupCache ((step acc n').2).cache (cacheKey name pid) =
      lookupCache acc.2.cache (cacheKey name pid) ∧
    ((step acc n').1.find? (fun e => e.1 == name)) =
      acc.1.find? (fun e => e.1 == name)

/-! ## General helper lemmas -/

theorem string_append_left_cancel {a b c : String} (h : a ++ b = a ++ c) : b = c := by
  have hd : (a ++ b).data = (a ++ c).data := by rw [h]
  simp only [String.data_append] at hd
  exact String.ext (List.append_cancel_left hd)

theorem string_append_right_cancel {a b c : String} (h : a ++ c = b ++ c) : a = b := by
  have hd : (a ++ c).data = (b ++ c).data := by rw [h]
  simp only [String.data_append] at hd
  exact String.ext (List.append_cancel_right hd)

theorem find?_append_of_isSome {α : Type _} {l : List α} (l' : List α) {p : α → Bool}
    (h : (l.find? p).isSome) : (l ++ l').find? p = l.find? p := by
  rw [List.find?_append]
  cases hf : l.find? p with
  | none => rw [hf] at h; simp at h
  | some x => rfl

/-! ## C9: the folder fingerprint -/

/-- **C9.** `generate_folder_hash` is a deterministic function of exactly
the folder's absolute path and its own last-modification timestamp: two
file systems agreeing on those two values for a folder yield the same
fingerprint, and (with the md5 digest abstracted as any injective
function) changing only the mtime string changes the fingerprint. -/
theorem C9_folder_hash_deterministic_and_mtime_sensitive :
    (∀ (h : String → String) (fs1 fs2 : FileSystem) (p : String),
      fs1.abspath p = fs2.abspath p →
      fs1.mtime (fs1.abspath p) = fs2.mtime (fs2.abspath p) →
      fs1.pathExists (fs1.abspath p) = true →
      fs2.pathExists (fs2.abspath p) = true →
      generate_folder_hash h fs1 p = generate_folder_hash h fs2 p) ∧
    (∀ h : String → String, Function.Injective h →
      ∀ p m1 m2 : String, m1 ≠ m2 →
        generate_folder_hash_core h p m1 ≠ generate_folder_hash_core h p m2) := by
  constructor
  · intro h fs1 fs2 p hap hmt hex1 hex2
    unfold generate_folder_hash
    dsimp only
    rw [← hap] at hmt hex2
    rw [← hap, ← hmt, hex1, hex2]
  · intro h hinj p m1 m2 hne heq
    exact hne (string_append_left_cancel (hinj heq))

/-- Witness for C9 at a concrete file-system pair (differing only in
folder sizes) and a concrete mtime change, with the identity digest. -/
theorem C9_witness :
    generate_folder_hash id
        ⟨id, fun _ => true, fun _ => "100.5", id, fun _ => true, fun _ => [], fun _ => 0⟩
        "/data/to_upload/A" =
      generate_folder_hash id
        ⟨id, fun _ => true, fun _ => "100.5", id, fun _ => true, fun _ => [], fun _ => 7⟩
        "/data/to_upload/A" ∧
    generate_folder_hash_core id "/data/to_upload/A" "100.5" ≠
      generate_folder_hash_core id "/data/to_upload/A" "200.5" := by
  constructor
  · exact C9_folder_hash_deterministic_and_mtime_sensitive.1 id _ _ _ rfl rfl rfl rfl
  · exact C9_folder_hash_deterministic_and_mtime_sensitive.2 id (fun a b hab => hab)
      _ _ _ (by decide)

/-! ## C8: `is_folder_uploaded` degrades, never aborts -/

/-- **C8.** `is_folder_uploaded` is a total function (the Python catch-all
makes it exception-free): a missing ledger file yields `false` with no
warning ("nothing uploaded yet"), and a present but unparsable ledger file
yields `false` with the surfaced warning, for every file system and path,
so the run can proceed. -/
theorem C8_is_folder_uploaded_never_raises :
    ∀ (h : String → String) (fs : FileSystem) (p : String),
      is_folder_uploaded h fs LedgerFile.missing p = (false, false) ∧
      is_folder_uploaded h fs LedgerFile.corrupt p = (false, true) := by
  intro h fs p
  constructor
  · rfl
  · unfold is_folder_uploaded generate_folder_hash
    dsimp only
    cases hb : fs.pathExists (fs.abspath p) <;> rfl

/-! ## C7: `record_folder_upload` upserts -/

/-- The in-place row update performed under an existing fingerprint. -/
theorem record_update_row_hash (driveFolderId now : String) (fh : String)
    (r : LedgerRow) :
    (if r.folder_hash == fh then
        { r with drive_folder_id := driveFolderId, upload_time := now }
      else r).folder_hash = r.folder_hash := by
  by_cases hr : r.folder_hash == fh <;> simp [hr]

/-- `record_folder_upload` on a parsed table containing the fingerprint:
the rows are rewritten in place. -/
theorem record_table_update (h : String → String) (fs : FileSystem)
    (path driveFolderId now : String) (rows : List LedgerRow)
    (hex : fs.pathExists (fs.abspath path) = true)
    (hany : rows.any (fun r => r.folder_hash ==
      generate_folder_hash_core h (fs.abspath path) (fs.mtime (fs.abspath path))) = true) :
    record_folder_upload h fs (LedgerFile.table rows) path driveFolderId now =
      (LedgerFile.table (rows.map (fun r =>
        if r.folder_hash ==
            generate_folder_hash_core h (fs.abspath path) (fs.mtime (fs.abspath path))
          then { r with drive_folder_id := driveFolderId, upload_time := now }
          else r)), true) := by
  simp [record_folder_upload, generate_folder_hash, hex, hany]

/-- `record_folder_upload` on a parsed table not containing the
fingerprint: the single new row is appended. -/
theorem record_table_append (h : String → String) (fs : FileSystem)
    (path driveFolderId now : String) (rows : List LedgerRow)
    (hex : fs.pathExists (fs.abspath path) = true)
    (hany : rows.any (fun r => r.folder_hash ==
      generate_folder_hash_core h (fs.abspath path) (fs.mtime (fs.abspath path))) = false) :
    record_folder_upload h fs (LedgerFile.table rows) path driveFolderId now =
      (LedgerFile.table (rows ++
        [{ folder_path := fs.abspath path
           folder_name := fs.basename (fs.abspath path)
           folder_hash := generate_folder_hash_core h (fs.abspath path)
             (fs.mtime (fs.abspath path))
           drive_folder_id := driveFolderId
           upload_time := now }]), true) := by
  simp [record_folder_upload, generate_folder_hash, hex, hany]

/-- **C7.** `record_folder_upload` upsert semantics: on a missing ledger
file the table is created with exactly the one new row; when a row with
the same fingerprint already exists the rows are rewritten in place with
the new drive-folder id and timestamp and no row is appended (the row
count is unchanged); and the resulting table has at most one row per
fingerprint whenever the incoming table does. -/
theorem C7_record_folder_upload_upsert (h : String → String) (fs : FileSystem)
    (path driveFolderId now : String)
    (hex : fs.pathExists (fs.abspath path) = true) :
    (record_folder_upload h fs LedgerFile.missing path driveFolderId now =
      (LedgerFile.table [{ folder_path := fs.abspath path
                           folder_name := fs.basename (fs.abspath path)
                           folder_hash := generate_folder_hash_core h (fs.abspath path)
                             (fs.mtime (fs.abspath path))
                           drive_folder_id := driveFolderId
                           upload_time := now }], true)) ∧
    (∀ rows : List LedgerRow,
      rows.any (fun r => r.folder_hash ==
          generate_folder_hash_core h (fs.abspath path) (fs.mtime (fs.abspath path))) =
        true →
      record_folder_upload h fs (LedgerFile.table rows) path driveFolderId now =
        (LedgerFile.table (rows.map (fun r =>
          if r.folder_hash ==
              generate_folder_hash_core h (fs.abspath path) (fs.mtime (fs.abspath path))
            then { r with drive_folder_id := driveFolderId, upload_time := now }
            else r)), true) ∧
      (rows.map (fun r =>
        if r.folder_hash ==
            generate_folder_hash_core h (fs.abspath path) (fs.mtime (fs.abspath path))
          then { r with drive_folder_id := driveFolderId, upload_time := now }
          else r)).length = rows.length) ∧
    (∀ rows : List LedgerRow,
      rows.Pairwise (fun a b => a.folder_hash ≠ b.folder_hash) →
      ∃ rows' : List LedgerRow,
        record_folder_upload h fs (LedgerFile.table rows) path driveFolderId now =
          (LedgerFile.table rows', true) ∧
        rows'.Pairwise (fun a b => a.folder_hash ≠ b.folder_hash)) := by
  refine ⟨?_, ?_, ?_⟩
  · simp [record_folder_upload, generate_folder_hash, hex]
  · intro rows hany
    exact ⟨record_table_update h fs path driveFolderId now rows hex hany,
      List.length_map _ _⟩
  · intro rows hpw
    by_cases hany : rows.any (fun r => r.folder_hash ==
        generate_folder_hash_core h (fs.abspath path) (fs.mtime (fs.abspath path))) = true
    · refine ⟨_, record_table_update h fs path driveFolderId now rows hex hany, ?_⟩
      refine List.Pairwise.map _ ?_ hpw
      intro a b hab
      rw [record_update_row_hash, record_update_row_hash]
      exact hab
    · have hf : rows.any (fun r => r.folder_hash ==
          generate_folder_hash_core h (fs.abspath path) (fs.mtime (fs.abspath path))) =
          false := by
        simpa using hany
      refine ⟨_, record_table_append h fs path driveFolderId now rows hex hf, ?_⟩
      rw [List.pairwise_append]
      refine ⟨hpw, List.pairwise_singleton _ _, ?_⟩
      intro a ha b hb
      simp only [List.mem_singleton] at hb
      subst hb
      simp only [List.any_eq_true, not_exists, not_and] at hany
      intro hcontra
      exact absurd (beq_iff_eq.mpr hcontra) (by simpa using hany a ha)

/-- Witness for C7 on a concrete file system and a two-row ledger whose
first row carries the recorded fingerprint. -/
theorem C7_witness :
    record_folder_upload id
        ⟨id, fun _ => true, fun _ => "55.0", id, fun _ => true, fun _ => [], fun _ => 0⟩
        LedgerFile.missing "/up/A" "D9" "2025-01-01 00:00:00" =
      (LedgerFile.table [{ folder_path := "/up/A", folder_name := "/up/A"
                           folder_hash := "/up/A_55.0", drive_folder_id := "D9"
                           upload_time := "2025-01-01 00:00:00" }], true) ∧
    record_folder_upload id
        ⟨id, fun _ => true, fun _ => "55.0", id, fun _ => true, fun _ => [], fun _ => 0⟩
        (LedgerFile.table
          [{ folder_path := "/up/A", folder_name := "A", folder_hash := "/up/A_55.0"
             drive_folder_id := "OLD", upload_time := "2024-01-01 00:00:00" },
           { folder_path := "/up/B", folder_name := "B", folder_hash := "/up/B_77.0"
             drive_folder_id := "K2", upload_time := "2024-02-02 00:00:00" }])
        "/up/A" "D9" "2025-01-01 00:00:00" =
      (LedgerFile.table
        [{ folder_path := "/up/A", folder_name := "A", folder_hash := "/up/A_55.0"
           drive_folder_id := "D9", upload_time := "2025-01-01 00:00:00" },
         { folder_path := "/up/B", folder_name := "B", folder_hash := "/up/B_77.0"
           drive_folder_id := "K2", upload_time := "2024-02-02 00:00:00" }], true) := by
  constructor
  · exact (C7_record_folder_upload_upsert id _ "/up/A" "D9" "2025-01-01 00:00:00" rfl).1
  · have := ((C7_record_folder_upload_upsert id
      ⟨id, fun _ => true, fun _ => "55.0", id, fun _ => true, fun _ => [], fun _ => 0⟩
      "/up/A" "D9" "2025-01-01 00:00:00" rfl).2.1
      [{ folder_path := "/up/A", folder_name := "A", folder_hash := "/up/A_55.0"
         drive_folder_id := "OLD", upload_time := "2024-01-01 00:00:00" },
       { folder_path := "/up/B", folder_name := "B", folder_hash := "/up/B_77.0"
         drive_folder_id := "K2", upload_time := "2024-02-02 00:00:00" }] (by decide)).1
    rw [this]
    decide

/-! ## C4: `upload_file` probes before uploading -/

/-- **C4.** Every `upload_file` call runs the existence probe before any
content transfer: when a non-trashed file of that name already exists under
the parent, the call returns the existing file's id having made zero
`file.execute` (create/upload) attempts, whatever the remote would have
answered — the call is idempotent under retry. -/
theorem C4_upload_file_early_return (store : List RemoteObject)
    (fileName parentId fid : String) (attempts : Nat → ExecResult)
    (probe : Nat → Option String)
    (hfound : check_file_exists store fileName parentId = some fid) :
    upload_file store fileName parentId attempts probe =
      ⟨UploadResult.alreadyExists fid, [], 0⟩ := by
  unfold upload_file
  rw [hfound]

/-- Witness for C4: a store holding a non-trashed `a.txt` under parent `P`,
against an adversarial remote that would keep erroring. -/
theorem C4_witness :
    upload_file [⟨"F1", "a.txt", some "P", false, false⟩] "a.txt" "P"
        (fun _ => ExecResult.err 503) (fun _ => none) =
      ⟨UploadResult.alreadyExists "F1", [], 0⟩ :=
  C4_upload_file_early_return _ _ _ _ _ _ (by decide)

/-! ## C2: the `upload_file` retry machine -/

/-- Exhaustion shape of the retry loop: if every attempt in the window
fails with a transient status and no probe finds the file, the loop runs
its full backoff schedule and ends exhausted. -/
theorem executeLoop_exhausts (attempts : Nat → ExecResult)
    (probe : Nat → Option String) :
    ∀ (fuel rc : Nat),
      (∀ k, rc ≤ k → k < rc + fuel → ∃ s, attempts k = ExecResult.err s ∧
        isTransientStatus s = true) →
      (∀ k, rc < k → k ≤ rc + fuel → probe k = none) →
      executeLoop attempts probe rc fuel =
        ⟨UploadResult.exhausted,
          (List.range fuel).map (fun j => min (2 ^ (rc + j + 1)) 60), fuel⟩ := by
  intro fuel
  induction fuel with
  | zero => intro rc _ _; rfl
  | succ n ih =>
    intro rc hatt hpr
    obtain ⟨s, hs, hts⟩ := hatt rc (Nat.le_refl rc) (by omega)
    rw [executeLoop, hs]
    simp only [hts, if_true]
    rw [hpr (rc + 1) (by omega) (by omega)]
    rw [ih (rc + 1) (fun k hk1 hk2 => hatt k (by omega) (by omega))
      (fun k hk1 hk2 => hpr k (by omega) (by omega))]
    have hmap : (List.range n).map (fun j => min (2 ^ (rc + 1 + j + 1)) 60) =
        (List.range n).map ((fun j => min (2 ^ (rc + j + 1)) 60) ∘ Nat.succ) := by
      apply List.map_congr_left
      intro j _
      simp only [Function.comp_apply]
      have harith : rc + 1 + j + 1 = rc + (j + 1) + 1 := by omega
      rw [harith]
    rw [List.range_succ_eq_map, List.map_cons, List.map_map, Nat.add_zero, hmap]

/-- Probe-recovery shape of the retry loop: after `n` transient failures
with fruitless probes, a probe that finds the file ends the loop with the
discovered id after exactly `n + 1` create attempts. -/
theorem executeLoop_probe_found (attempts : Nat → ExecResult)
    (probe : Nat → Option String) :
    ∀ (n fuel rc : Nat) (fid : String), n + 1 ≤ fuel →
      (∀ k, rc ≤ k → k ≤ rc + n → ∃ s, attempts k = ExecResult.err s ∧
        isTransientStatus s = true) →
      (∀ k, rc < k → k ≤ rc + n → probe k = none) →
      probe (rc + n + 1) = some fid →
      (executeLoop attempts probe rc fuel).result = UploadResult.foundByProbe fid ∧
      (executeLoop attempts probe rc fuel).execCalls = n + 1 := by
  intro n
  induction n with
  | zero =>
    intro fuel rc fid hfuel hatt hpr hfound
    obtain ⟨f, rfl⟩ : ∃ f, fuel = f + 1 := ⟨fuel - 1, by omega⟩
    obtain ⟨s, hs, hts⟩ := hatt rc (Nat.le_refl rc) (by omega)
    rw [executeLoop, hs]
    simp only [hts, if_true]
    rw [show rc + 0 + 1 = rc + 1 by omega] at hfound
    rw [hfound]
    exact ⟨rfl, rfl⟩
  | succ m ih =>
    intro fuel rc fid hfuel hatt hpr hfound
    obtain ⟨f, rfl⟩ : ∃ f, fuel = f + 1 := ⟨fuel - 1, by omega⟩
    obtain ⟨s, hs, hts⟩ := hatt rc (Nat.le_refl rc) (by omega)
    rw [executeLoop, hs]
    simp only [hts, if_true]
    rw [hpr (rc + 1) (by omega) (by omega)]
    have := ih f (rc + 1) fid (by omega)
      (fun k hk1 hk2 => hatt k (by omega) (by omega))
      (fun k hk1 hk2 => hpr k (by omega) (by omega))
      (by rw [show rc + 1 + m + 1 = rc + (m + 1) + 1 by omega]; exact hfound)
    simp only at this ⊢
    exact ⟨this.1, by rw [this.2]⟩

/-- Fatal shape of the retry loop: the first non-transient status
propagates at once, with no further attempts and no sleep for it. -/
theorem executeLoop_fatal (attempts : Nat → ExecResult)
    (probe : Nat → Option String) :
    ∀ (n fuel rc : Nat) (s : Nat), n < fuel →
      (∀ k, rc ≤ k → k < rc + n → ∃ t, attempts k = ExecResult.err t ∧
        isTransientStatus t = true) →
      (∀ k, rc < k → k ≤ rc + n → probe k = none) →
      attempts (rc + n) = ExecResult.err s →
      isTransientStatus s = false →
      (executeLoop attempts probe rc fuel).result = UploadResult.fatalError s ∧
      (executeLoop attempts probe rc fuel).execCalls = n + 1 := by
  intro n
  induction n with
  | zero =>
    intro fuel rc s hfuel hatt hpr herr hnt
    obtain ⟨f, rfl⟩ : ∃ f, fuel = f + 1 := ⟨fuel - 1, by omega⟩
    rw [show rc + 0 = rc by omega] at herr
    rw [executeLoop, herr]
    simp only [hnt]
    exact ⟨rfl, rfl⟩
  | succ m ih =>
    intro fuel rc s hfuel hatt hpr herr hnt
    obtain ⟨f, rfl⟩ : ∃ f, fuel = f + 1 := ⟨fuel - 1, by omega⟩
    obtain ⟨t, ht, hts⟩ := hatt rc (Nat.le_refl rc) (by omega)
    rw [executeLoop, ht]
    simp only [hts, if_true]
    rw [hpr (rc + 1) (by omega) (by omega)]
    have := ih f (rc + 1) s (by omega)
      (fun k hk1 hk2 => hatt k (by omega) (by omega))
      (fun k hk1 hk2 => hpr k (by omega) (by omega))
      (by rw [show rc + 1 + m = rc + (m + 1) by omega]; exact herr) hnt
    simp only at this ⊢
    exact ⟨this.1, by rw [this.2]⟩

/-- **C2.** The `upload_file` retry loop: (i) when every attempt hits a
transient status (429/5xx) and no probe finds the file, it retries with
the exponential backoff schedule `min(2^k, 60)` up to the fixed ceiling of
5 attempts and then fails terminally; (ii) when, before a retry, the
re-run existence probe finds the file, the loop returns the discovered id
at once, making no further create attempts; (iii) a non-transient status
propagates immediately; (iv) exhaustion is a failure of that single file
only — the parallel engine records a per-file failed outcome for exactly
that item and keeps the batch going. -/
theorem C2_upload_file_retry_semantics :
    (∀ (attempts : Nat → ExecResult) (probe : Nat → Option String),
      (∀ k, k < 5 → ∃ s, attempts k = ExecResult.err s ∧ isTransientStatus s = true) →
      (∀ k, 1 ≤ k → k ≤ 5 → probe k = none) →
      executeWithRetry attempts probe =
        ⟨UploadResult.exhausted, [2, 4, 8, 16, 32], 5⟩) ∧
    (∀ (attempts : Nat → ExecResult) (probe : Nat → Option String) (n : Nat)
        (fid : String), n < 5 →
      (∀ k, k ≤ n → ∃ s, attempts k = ExecResult.err s ∧ isTransientStatus s = true) →
      (∀ k, 1 ≤ k → k ≤ n → probe k = none) →
      probe (n + 1) = some fid →
      (executeWithRetry attempts probe).result = UploadResult.foundByProbe fid ∧
      (executeWithRetry attempts probe).execCalls = n + 1) ∧
    (∀ (attempts : Nat → ExecResult) (probe : Nat → Option String) (n s : Nat),
      n < 5 →
      (∀ k, k < n → ∃ t, attempts k = ExecResult.err t ∧ isTransientStatus t = true) →
      (∀ k, 1 ≤ k → k ≤ n → probe k = none) →
      attempts n = ExecResult.err s →
      isTransientStatus s = false →
      (executeWithRetry attempts probe).result = UploadResult.fatalError s ∧
      (executeWithRetry attempts probe).execCalls = n + 1) ∧
    (∀ (folderIds : PathMap) (batch : List FileItem)
        (u r : FileItem → UploadResult) (it : FileItem),
      it ∈ batch → (lookupPath folderIds it.parentKey).isSome = true →
      u it = UploadResult.exhausted → r it = UploadResult.exhausted →
      (it, FileOutcome.retryFailed) ∈ processParallelBatch folderIds u r batch) := by
  refine ⟨?_, ?_, ?_, ?_⟩
  · intro attempts probe hatt hpr
    unfold executeWithRetry
    rw [executeLoop_exhausts attempts probe 5 0
      (fun k hk1 hk2 => hatt k (by omega)) (fun k hk1 hk2 => hpr k (by omega) (by omega))]
    decide
  · intro attempts probe n fid hn hatt hpr hfound
    unfold executeWithRetry
    exact executeLoop_probe_found attempts probe n 5 0 fid (by omega)
      (fun k hk1 hk2 => hatt k (by omega)) (fun k hk1 hk2 => hpr k (by omega) (by omega))
      (by rw [show 0 + n + 1 = n + 1 by omega]; exact hfound)
  · intro attempts probe n s hn hatt hpr herr hnt
    unfold executeWithRetry
    exact executeLoop_fatal attempts probe n 5 0 s (by omega)
      (fun k hk1 hk2 => hatt k (by omega)) (fun k hk1 hk2 => hpr k (by omega) (by omega))
      (by rw [show 0 + n = n by omega]; exact herr) hnt
  · intro folderIds batch u r it hmem hpar hu hr
    unfold processParallelBatch
    have himg : (fun x =>
        match lookupPath folderIds x.parentKey with
        | none => (x, FileOutcome.parentMissing)
        | some _ =>
          if (u x).isSuccess then (x, FileOutcome.parallelOk)
          else if (r x).isSuccess then (x, FileOutcome.retryOk)
          else (x, FileOutcome.retryFailed)) it = (it, FileOutcome.retryFailed) := by
      obtain ⟨pid, hpid⟩ := Option.isSome_iff_exists.mp hpar
      dsimp only
      rw [hpid, hu, hr]
      rfl
    rw [← himg]
    exact List.mem_map_of_mem _ hmem

/-- Witness for C2 at concrete oracles: a remote that always answers 503
with fruitless probes (exhaustion with the full backoff schedule), one
whose probe finds the file before the third attempt, one that answers 404
at once, and a two-file batch whose first file exhausts its retries. -/
theorem C2_witness :
    executeWithRetry (fun _ => ExecResult.err 503) (fun _ => none) =
      ⟨UploadResult.exhausted, [2, 4, 8, 16, 32], 5⟩ ∧
    (executeWithRetry (fun _ => ExecResult.err 429)
        (fun k => if k == 2 then some "X7" else none)).result =
      UploadResult.foundByProbe "X7" ∧
    (executeWithRetry (fun k => if k == 0 then ExecResult.err 503 else ExecResult.err 404)
        (fun _ => none)).result = UploadResult.fatalError 404 ∧
    (⟨[], 9⟩, FileOutcome.retryFailed) ∈
      processParallelBatch [([], "R")]
        (fun _ => UploadResult.exhausted) (fun _ => UploadResult.exhausted)
        [⟨[], 9⟩, ⟨["sub"], 1⟩] := by
  refine ⟨?_, ?_, ?_, ?_⟩
  · exact C2_upload_file_retry_semantics.1 _ _
      (fun k hk => ⟨503, rfl, rfl⟩) (fun k hk1 hk2 => rfl)
  · exact (C2_upload_file_retry_semantics.2.1 _ _ 1 "X7" (by omega)
      (fun k hk => ⟨429, rfl, rfl⟩)
      (fun k hk1 hk2 => by
        have hk : k = 1 := by omega
        subst hk; rfl)
      (by decide)).1
  · exact (C2_upload_file_retry_semantics.2.2.1 _ _ 1 404 (by omega)
      (fun k hk => ⟨503, by
        have hk0 : k = 0 := by omega
        subst hk0; rfl, rfl⟩)
      (fun k hk1 hk2 => rfl)
      (by decide) (by decide)).1
  · exact C2_upload_file_retry_semantics.2.2.2 _ _ _ _ _ (by decide) (by decide)
      rfl rfl

/-! ## C10: the `find_or_create_folder` cache key collision -/

/-- Appending a fresh cache binding is found when the key was absent. -/
theorem lookupCache_append_self {c : List (String × String)} {k v : String}
    (h : lookupCache c k = none) :
    lookupCache (c ++ [(k, v)]) k = some v := by
  unfold lookupCache at h ⊢
  rw [List.find?_append]
  cases hf : c.find? (fun e => e.1 == k) with
  | none => simp
  | some x => rw [hf] at h; simp at h

/-- **C10.** `find_or_create_folder` memoizes under the concatenated
string key `folder_name + "_" + parent_id`; hence for any two input pairs
whose concatenated keys coincide — e.g. `("a_b", "c")` and
`("a", "b_c")` — a later call returns the id cached by the earlier call
for the other folder, touching neither the remote query nor creation (the
drive state is left exactly as it was). -/
theorem C10_cache_key_collision (st : DriveState) (name1 name2 : String)
    (p1 p2 : Option String) (fid : String) (st' : DriveState)
    (hkey : cacheKey name1 p1 = cacheKey name2 p2)
    (hmiss : lookupCache st.cache (cacheKey name1 p1) = none)
    (hcall : find_or_create_folder st name1 p1 = (fid, st')) :
    find_or_create_folder st' name2 p2 = (fid, st') := by
  have hcache : lookupCache st'.cache (cacheKey name2 p2) = some fid := by
    rw [← hkey]
    unfold find_or_create_folder at hcall
    dsimp only at hcall
    rw [hmiss] at hcall
    cases hq : (folderQuery st.store name1 p1).head? with
    | some o =>
      rw [hq] at hcall
      dsimp only at hcall
      injection hcall with h1 h2
      subst h2
      subst h1
      exact lookupCache_append_self hmiss
    | none =>
      rw [hq] at hcall
      simp only [create_folder_api] at hcall
      injection hcall with h1 h2
      subst h2
      subst h1
      exact lookupCache_append_self hmiss
  unfold find_or_create_folder
  dsimp only
  rw [hcache]

/-- Witness for C10 at the concrete collision `("a_b", "c")` /
`("a", "b_c")`: both calls answer with the same remote id. -/
theorem C10_witness :
    find_or_create_folder
        { cache := [("a_b_c", "rid0")]
          store := [⟨"rid0", "a_b", some "c", true, false⟩], nextId := 1 }
        "a" (some "b_c") =
      ("rid0",
        { cache := [("a_b_c", "rid0")]
          store := [⟨"rid0", "a_b", some "c", true, false⟩], nextId := 1 }) := by
  have := C10_cache_key_collision ⟨[], [], 0⟩ "a_b" "a" (some "c") (some "b_c")
    "rid0"
    { cache := [("a_b_c", "rid0")]
      store := [⟨"rid0", "a_b", some "c", true, false⟩], nextId := 1 }
    (by decide) (by decide) (by decide)
  exact this

/-! ## C1: a recorded, unchanged folder is skipped on the second run -/

/-- A folder whose current fingerprint is present in the parsed ledger is
reported as uploaded, with no warning. -/
theorem is_folder_uploaded_recorded (h : String → String) (fs : FileSystem)
    (rows : List LedgerRow) (p : String) (r : LedgerRow)
    (hex : fs.pathExists (fs.abspath p) = true)
    (hr : r ∈ rows)
    (hhash : r.folder_hash =
      generate_folder_hash_core h (fs.abspath p) (fs.mtime (fs.abspath p))) :
    is_folder_uploaded h fs (LedgerFile.table rows) p = (true, false) := by
  have hany : rows.any (fun row => row.folder_hash ==
      generate_folder_hash_core h (fs.abspath p) (fs.mtime (fs.abspath p))) = true :=
    List.any_eq_true.mpr ⟨r, hr, beq_iff_eq.mpr hhash⟩
  unfold is_folder_uploaded generate_folder_hash
  dsimp only
  rw [hex]
  simp only [eq_self_iff_true, if_true]
  dsimp only [read_csv]
  rw [hany]

/-- **C1.** A folder of the staging directory that a previous successful
run recorded in the ledger, with its absolute path and mtime (hence its
fingerprint) unchanged, is excluded from `get_folders_to_upload` on a
default (`force = False`) second run; consequently it is absent from the
sequence of folders handed to `upload_folder`, so the second run performs
zero additional remote create or upload calls for it. -/
theorem C1_second_run_skips_recorded_folder (h : String → String) (fs : FileSystem)
    (rows : List LedgerRow) (dir item : String) (r : LedgerRow)
    (hex : fs.pathExists (fs.abspath (joinPath dir item)) = true)
    (hr : r ∈ rows)
    (hhash : r.folder_hash = generate_folder_hash_core h
      (fs.abspath (joinPath dir item)) (fs.mtime (fs.abspath (joinPath dir item)))) :
    (∀ f ∈ get_folders_to_upload h fs (LedgerFile.table rows) dir false,
      f.path ≠ joinPath dir item) ∧
    joinPath dir item ∉ upload_all_processed h fs (LedgerFile.table rows) dir false := by
  have hmain : ∀ f ∈ get_folders_to_upload h fs (LedgerFile.table rows) dir false,
      f.path ≠ joinPath dir item := by
    intro f hf hcontra
    unfold get_folders_to_upload at hf
    rw [List.mem_filterMap] at hf
    obtain ⟨it', hit', heq⟩ := hf
    dsimp only at heq
    by_cases hd : fs.isdir (joinPath dir it') = true
    · rw [hd] at heq
      simp only [if_true] at heq
      have hfpath : f.path = joinPath dir it' := by
        by_cases ht : (false || !(is_folder_uploaded h fs (LedgerFile.table rows)
            (joinPath dir it')).1) = true
        · rw [ht] at heq
          simp only [if_true, Option.some.injEq] at heq
          rw [← heq]
        · simp only [Bool.not_eq_true] at ht
          rw [ht] at heq
          simp at heq
      have hit_eq : it' = item := by
        have : joinPath dir it' = joinPath dir item := by rw [← hfpath, hcontra]
        unfold joinPath at this
        exact string_append_left_cancel this
      subst hit_eq
      rw [is_folder_uploaded_recorded h fs rows (joinPath dir it') r hex hr hhash] at heq
      simp at heq
    · simp only [Bool.not_eq_true] at hd
      rw [hd] at heq
      simp at heq
  refine ⟨hmain, ?_⟩
  intro hmem
  unfold upload_all_processed at hmem
  rw [List.mem_map] at hmem
  obtain ⟨f, hf, hfp⟩ := hmem
  rw [List.mem_insertionSort] at hf
  exact hmain f hf hfp

/-- Witness for C1: a staging directory with the single folder `A`, already
recorded in the ledger under its current fingerprint, is not processed
again. -/
theorem C1_witness :
    "/up/A" ∉ upload_all_processed id
      ⟨id, fun _ => true, fun _ => "10.0", id, fun _ => true,
        fun d => if d == "/up" then ["A"] else [], fun _ => 3⟩
      (LedgerFile.table
        [{ folder_path := "/up/A", folder_name := "A", folder_hash := "/up/A_10.0"
           drive_folder_id := "D1", upload_time := "2024-06-01 10:00:00" }])
      "/up" false :=
  (C1_second_run_skips_recorded_folder id
    ⟨id, fun _ => true, fun _ => "10.0", id, fun _ => true,
      fun d => if d == "/up" then ["A"] else [], fun _ => 3⟩
    [{ folder_path := "/up/A", folder_name := "A", folder_hash := "/up/A_10.0"
       drive_folder_id := "D1", upload_time := "2024-06-01 10:00:00" }]
    "/up" "A" _ rfl (List.mem_singleton.mpr rfl) (by decide)).2

/-! ## C5: batch folder creation against an already existing folder -/

/-- For one fixed parent id, the concatenated cache key determines the
folder name. -/
theorem cacheKey_inj_name {n1 n2 : String} {pid : Option String}
    (h : cacheKey n1 pid = cacheKey n2 pid) : n1 = n2 := by
  unfold cacheKey at h
  exact string_append_right_cancel (string_append_right_cancel h)

/-- Appending a binding under a different key leaves a cache lookup
unchanged. -/
theorem lookupCache_append_ne {c : List (String × String)} {k' k v : String}
    (h : k' ≠ k) : lookupCache (c ++ [(k', v)]) k = lookupCache c k := by
  unfold lookupCache
  rw [List.find?_append]
  cases hf : c.find? (fun e => e.1 == k) with
  | none => simp [beq_eq_false_iff_ne.mpr h]
  | some x => rfl

/-- Appending a remote object of a different name leaves the folder query
unchanged. -/
theorem folderQuery_append_other {s : List RemoteObject} {o : RemoteObject}
    {folderName : String} {pid : Option String} (h : o.name ≠ folderName) :
    folderQuery (s ++ [o]) folderName pid = folderQuery s folderName pid := by
  unfold folderQuery
  rw [List.filter_append]
  have : (o.name == folderName) = false := beq_eq_false_iff_ne.mpr h
  simp [this]

/-- `find_or_create_folder` on some other folder name neither disturbs the
folder query for `name` under `pid` nor its cache line. -/
theorem focf_preserves_other (st : DriveState) (n' : String)
    (name : String) (pid : Option String) (hne : n' ≠ name) :
    folderQuery ((find_or_create_folder st n' pid).2).store name pid =
      folderQuery st.store name pid ∧
    lookupCache ((find_or_create_folder st n' pid).2).cache (cacheKey name pid) =
      lookupCache st.cache (cacheKey name pid) := by
  have hkey : cacheKey n' pid ≠ cacheKey name pid := fun hc => hne (cacheKey_inj_name hc)
  unfold find_or_create_folder
  dsimp only
  cases hl : lookupCache st.cache (cacheKey n' pid) with
  | some fid => exact ⟨rfl, rfl⟩
  | none =>
    cases hq : (folderQuery st.store n' pid).head? with
    | some o =>
      dsimp only
      exact ⟨rfl, lookupCache_append_ne hkey⟩
    | none =>
      simp only [create_folder_api]
      exact ⟨folderQuery_append_other hne, lookupCache_append_ne hkey⟩

/-- `create_folder_api` on some other folder name preserves the same two
observations. -/
theorem createapi_preserves_other (st : DriveState) (n' : String)
    (name : String) (pid : Option String) (hne : n' ≠ name) :
    folderQuery ((create_folder_api st n' pid).2).store name pid =
      folderQuery st.store name pid ∧
    lookupCache ((create_folder_api st n' pid).2).cache (cacheKey name pid) =
      lookupCache st.cache (cacheKey name pid) := by
  unfold create_folder_api
  exact ⟨folderQuery_append_other hne, rfl⟩

/-- `find_or_create_folder` with a cold cache line and a query that finds
an existing folder returns that folder's id and creates nothing. -/
theorem focf_found {st : DriveState} {name : String} {pid : Option String}
    {obj : RemoteObject}
    (hc : lookupCache st.cache (cacheKey name pid) = none)
    (hq : (folderQuery st.store name pid).head? = some obj) :
    find_or_create_folder st name pid =
      (obj.rid, { st with cache := st.cache ++ [(cacheKey name pid, obj.rid)] }) := by
  unfold find_or_create_folder
  dsimp only
  rw [hc, hq]

theorem batchStepSmall_preservesName (name : String) (pid : Option String) :
    PreservesName name pid (batchStepSmall pid) := by
  intro acc n' hne
  unfold batchStepSmall
  dsimp only
  obtain ⟨h1, h2⟩ := focf_preserves_other acc.2 n' name pid hne
  refine ⟨h1, h2, ?_⟩
  rw [List.find?_append]
  cases hf : acc.1.find? (fun e => e.1 == name) with
  | none => simp [beq_eq_false_iff_ne.mpr hne]
  | some x => rfl

theorem batchStepLarge_preservesName (name : String) (pid : Option String)
    (createFails : String → Bool) :
    PreservesName name pid (batchStepLarge pid createFails) := by
  intro acc n' hne
  unfold batchStepLarge
  by_cases hfail : createFails n' = true
  · rw [if_pos hfail]
    dsimp only
    obtain ⟨h1, h2⟩ := focf_preserves_other acc.2 n' name pid hne
    refine ⟨h1, h2, ?_⟩
    rw [List.find?_append]
    cases hf : acc.1.find? (fun e => e.1 == name) with
    | none => simp [beq_eq_false_iff_ne.mpr hne]
    | some x => rfl
  · rw [if_neg hfail]
    dsimp only
    obtain ⟨h1, h2⟩ := createapi_preserves_other acc.2 n' name pid hne
    refine ⟨h1, h2, ?_⟩
    rw [List.find?_append]
    cases hf : acc.1.find? (fun e => e.1 == name) with
    | none => simp [beq_eq_false_iff_ne.mpr hne]
    | some x => rfl

/-- A fold of a name-preserving step over names avoiding the target keeps
the target's query, cache line and association-list line unchanged. -/
theorem foldl_preservesName (name : String) (pid : Option String)
    (step : (List (String × String) × DriveState) → String →
      List (String × String) × DriveState)
    (hstep : PreservesName name pid step) :
    ∀ (l : List String) (acc : List (String × String) × DriveState),
      name ∉ l →
      folderQuery ((l.foldl step acc).2).store name pid =
        folderQuery acc.2.store name pid ∧
      lookupCache ((l.foldl step acc).2).cache (cacheKey name pid) =
        lookupCache acc.2.cache (cacheKey name pid) ∧
      ((l.foldl step acc).1.find? (fun e => e.1 == name)) =
        acc.1.find? (fun e => e.1 == name) := by
  intro l
  induction l with
  | nil => intro acc _; exact ⟨rfl, rfl, rfl⟩
  | cons n' rest ih =>
    intro acc hnot
    have hne : n' ≠ name := fun hcontra => hnot (hcontra ▸ List.mem_cons_self n' rest)
    have hrest : name ∉ rest := fun hcontra => hnot (List.mem_cons_of_mem n' hcontra)
    obtain ⟨s1, s2, s3⟩ := hstep acc n' hne
    obtain ⟨i1, i2, i3⟩ := ih (step acc n') hrest
    exact ⟨by rw [List.foldl_cons, i1, s1], by rw [List.foldl_cons, i2, s2],
      by rw [List.foldl_cons, i3, s3]⟩

/-- **C5 counterexample.** A batch of six folder names, the first of which
(`f1`) already exists remotely under the parent (non-trashed, same name,
same parent), and a remote whose direct create calls all succeed: the
code's large-batch path creates a *second* `f1` folder under `P` (the
query now matches two folders) and resolves `f1` to the fresh id `rid0`
rather than the existing folder's id `X`. -/
theorem C5_counterexample :
    ((batch_create_folders
        ⟨[], [⟨"X", "f1", some "P", true, false⟩], 0⟩
        ["f1", "f2", "f3", "f4", "f5", "f6"] (some "P") (fun _ => false)).1.find?
      (fun e => e.1 == "f1")).map (fun e => e.2) = some "rid0" ∧
    "rid0" ≠ "X" ∧
    (folderQuery (batch_create_folders
        ⟨[], [⟨"X", "f1", some "P", true, false⟩], 0⟩
        ["f1", "f2", "f3", "f4", "f5", "f6"] (some "P") (fun _ => false)).2.store
      "f1" (some "P")).length = 2 := by
  refine ⟨?_, by decide, ?_⟩ <;> decide

/-- **C5 (amended).** For every folder name submitted to batch folder
creation whose folder already exists in the remote store (non-trashed,
same name, same parent) and whose cache line is cold, *provided the batch
has at most five names or that name's direct creation call raises* (the
two cases routed through find-or-create), the operation resolves the name
to the existing folder's id and never creates a second folder with the
same name under the same parent; in larger batches a name whose direct
create call succeeds gets a duplicate folder instead. -/
theorem C5_batch_create_find_or_create_path (st : DriveState)
    (names : List String) (pid : Option String) (createFails : String → Bool)
    (name : String) (obj : RemoteObject)
    (hnd : names.Nodup) (hmem : name ∈ names)
    (hq : (folderQuery st.store name pid).head? = some obj)
    (hc : lookupCache st.cache (cacheKey name pid) = none)
    (hbr : names.length ≤ 5 ∨ createFails name = true) :
    (((batch_create_folders st names pid createFails).1.find?
        (fun e => e.1 == name)).map (fun e => e.2) = some obj.rid) ∧
    folderQuery (batch_create_folders st names pid createFails).2.store name pid =
      folderQuery st.store name pid := by
  obtain ⟨l1, l2, rfl⟩ := List.append_of_mem hmem
  obtain ⟨hnd1, hnd2, hdisj⟩ := List.nodup_append.mp hnd
  have hname_l1 : name ∉ l1 := fun hcontra =>
    (hdisj hcontra (List.mem_cons_self name l2)).elim
  have hname_l2 : name ∉ l2 := (List.nodup_cons.mp hnd2).1
  -- the two branches run the same find-or-create step on `name`
  have main : ∀ (step : (List (String × String) × DriveState) → String →
        List (String × String) × DriveState),
      PreservesName name pid step →
      (∀ acc : List (String × String) × DriveState,
        lookupCache acc.2.cache (cacheKey name pid) = none →
        (folderQuery acc.2.store name pid).head? = some obj →
        step acc name = (acc.1 ++ [(name, obj.rid)],
          { acc.2 with cache := acc.2.cache ++ [(cacheKey name pid, obj.rid)] })) →
      ((((l1 ++ name :: l2).foldl step ([], st)).1.find?
          (fun e => e.1 == name)).map (fun e => e.2) = some obj.rid) ∧
      folderQuery (((l1 ++ name :: l2).foldl step ([], st)).2).store name pid =
        folderQuery st.store name pid := by
    intro step hpres htarget
    rw [List.foldl_append]
    obtain ⟨a1, a2, a3⟩ := foldl_preservesName name pid step hpres l1 ([], st) hname_l1
    set acc1 := l1.foldl step ([], st) with hacc1
    rw [List.foldl_cons]
    have hstep := htarget acc1 (by rw [a2]; exact hc) (by rw [a1]; exact hq)
    rw [hstep]
    obtain ⟨b1, b2, b3⟩ := foldl_preservesName name pid step hpres l2 _ hname_l2
    constructor
    · rw [b3]
      dsimp only
      rw [List.find?_append, a3]
      simp
    · rw [b1]
      dsimp only
      rw [a1]
  rcases hbr with hsmall | hfails
  · have hcond : (l1 ++ name :: l2).length ≤ 5 := hsmall
    unfold batch_create_folders
    rw [if_pos hcond]
    refine main (batchStepSmall pid) (batchStepSmall_preservesName name pid) ?_
    intro acc hcold hfound
    unfold batchStepSmall
    rw [focf_found hcold hfound]
  · unfold batch_create_folders
    by_cases hcond : (l1 ++ name :: l2).length ≤ 5
    · rw [if_pos hcond]
      refine main (batchStepSmall pid) (batchStepSmall_preservesName name pid) ?_
      intro acc hcold hfound
      unfold batchStepSmall
      rw [focf_found hcold hfound]
    · rw [if_neg hcond]
      refine main (batchStepLarge pid createFails)
        (batchStepLarge_preservesName name pid createFails) ?_
      intro acc hcold hfound
      unfold batchStepLarge
      rw [if_pos hfails]
      dsimp only
      rw [focf_found hcold hfound]

/-- Witness for the amended C5: a three-name batch whose first name `f1`
already exists remotely resolves `f1` to the existing id `X` and leaves
the `f1` query untouched. -/
theorem C5_witness :
    (((batch_create_folders ⟨[], [⟨"X", "f1", some "P", true, false⟩], 0⟩
        ["f1", "f2", "f3"] (some "P") (fun _ => false)).1.find?
      (fun e => e.1 == "f1")).map (fun e => e.2) = some "X") ∧
    folderQuery (batch_create_folders ⟨[], [⟨"X", "f1", some "P", true, false⟩], 0⟩
        ["f1", "f2", "f3"] (some "P") (fun _ => false)).2.store "f1" (some "P") =
      folderQuery [⟨"X", "f1", some "P", true, false⟩] "f1" (some "P") := by
  have := C5_batch_create_find_or_create_path
    ⟨[], [⟨"X", "f1", some "P", true, false⟩], 0⟩
    ["f1", "f2", "f3"] (some "P") (fun _ => false) "f1"
    ⟨"X", "f1", some "P", true, false⟩
    (by decide) (by decide) (by decide) (by decide) (Or.inl (by decide))
  exact this

/-! ## C6: sequential fallback when the parallel mechanism raises -/

/-- Re-slicing with enough fuel recovers the original list. -/
theorem chunksAux_flatten {α : Type _} (n : Nat) :
    ∀ (fuel : Nat) (l : List α), l.length ≤ fuel →
      (chunksAux fuel (n + 1) l).flatten = l := by
  intro fuel
  induction fuel with
  | zero =>
    intro l hl
    cases l with
    | nil => rfl
    | cons x xs => simp at hl
  | succ f ih =>
    intro l hl
    cases l with
    | nil => rfl
    | cons x xs =>
      rw [chunksAux, List.flatten_cons,
        ih ((x :: xs).drop (n + 1)) (by
          simp only [List.length_drop, List.length_cons] at hl ⊢
          omega)]
      exact List.take_append_drop (n + 1) (x :: xs)

/-- Re-slicing a batch list recovers the original file list. -/
theorem chunks_flatten {α : Type _} (n : Nat) (l : List α) :
    (chunks (n + 1) l).flatten = l :=
  chunksAux_flatten n l.length l (Nat.le_refl _)

/-- The parallel path records exactly one outcome per submitted file. -/
theorem processParallelBatch_fst (folderIds : PathMap)
    (u r : FileItem → UploadResult) (batch : List FileItem) :
    (processParallelBatch folderIds u r batch).map Prod.fst = batch := by
  unfold processParallelBatch
  rw [List.map_map]
  have : (Prod.fst ∘ fun it =>
      match lookupPath folderIds it.parentKey with
      | none => (it, FileOutcome.parentMissing)
      | some _ =>
        if (u it).isSuccess then (it, FileOutcome.parallelOk)
        else if (r it).isSuccess then (it, FileOutcome.retryOk)
        else (it, FileOutcome.retryFailed)) = id := by
    funext it
    simp only [Function.comp_apply, id]
    cases lookupPath folderIds it.parentKey with
    | none => rfl
    | some pid =>
      by_cases hu : (u it).isSuccess = true
      · simp [hu]
      · by_cases hr : (r it).isSuccess = true <;> simp [hu, hr]
  rw [this, List.map_id]

/-- The sequential fallback also records exactly one outcome per file. -/
theorem processSeqBatch_fst (folderIds : PathMap) (s : FileItem → UploadResult)
    (batch : List FileItem) :
    (processSeqBatch folderIds s batch).map Prod.fst = batch := by
  unfold processSeqBatch
  rw [List.map_map]
  have : (Prod.fst ∘ fun it =>
      match lookupPath folderIds it.parentKey with
      | none => (it, FileOutcome.seqParentMissing)
      | some _ =>
        if (s it).isSuccess then (it, FileOutcome.seqOk)
        else (it, FileOutcome.seqFailed)) = id := by
    funext it
    simp only [Function.comp_apply, id]
    cases lookupPath folderIds it.parentKey with
    | none => rfl
    | some pid => by_cases hs : (s it).isSuccess = true <;> simp [hs]
  rw [this, List.map_id]

/-- Every batch-loop branch records exactly one outcome per file. -/
theorem processBatch_fst (folderIds : PathMap) (u r s : FileItem → UploadResult)
    (raises : Nat → Bool) (i : Nat) (batch : List FileItem) :
    (processBatch folderIds u r s raises i batch).map Prod.fst = batch := by
  unfold processBatch
  by_cases hr : raises i = true
  · rw [if_pos hr]; exact processSeqBatch_fst folderIds s batch
  · rw [if_neg hr]; exact processParallelBatch_fst folderIds u r batch

theorem processBatchesFrom_fst (folderIds : PathMap)
    (u r s : FileItem → UploadResult) (raises : Nat → Bool) :
    ∀ (bs : List (List FileItem)) (i : Nat),
      (processBatchesFrom folderIds u r s raises i bs).map Prod.fst = bs.flatten := by
  intro bs
  induction bs with
  | nil => intro i; rfl
  | cons b rest ih =>
    intro i
    rw [processBatchesFrom, List.map_append, processBatch_fst, ih (i + 1),
      List.flatten_cons]

/-- The events of the batch at a given index form a contiguous run of the
batch loop's output. -/
theorem processBatchesFrom_infix (folderIds : PathMap)
    (u r s : FileItem → UploadResult) (raises : Nat → Bool) :
    ∀ (bs : List (List FileItem)) (i j : Nat) (batch : List FileItem),
      bs.get? j = some batch →
      processBatch folderIds u r s raises (i + j) batch <:+:
        processBatchesFrom folderIds u r s raises i bs := by
  intro bs
  induction bs with
  | nil => intro i j batch hj; simp at hj
  | cons b rest ih =>
    intro i j batch hj
    cases j with
    | zero =>
      simp only [List.get?_cons_zero, Option.some.injEq] at hj
      subst hj
      rw [Nat.add_zero, processBatchesFrom]
      exact ⟨[], processBatchesFrom folderIds u r s raises (i + 1) rest, by simp⟩
    | succ m =>
      simp only [List.get?_cons_succ] at hj
      have := ih (i + 1) m batch hj
      rw [show i + (m + 1) = i + 1 + m by omega]
      rw [processBatchesFrom]
      obtain ⟨pre, suf, hps⟩ := this
      exact ⟨processBatch folderIds u r s raises i b ++ pre, suf, by
        rw [← hps]; simp [List.append_assoc]⟩

/-- **C6.** When `parallel_upload_files` raises for an entire batch, the
engine falls back to fully sequential per-file upload for that batch
rather than aborting: provided every file's parent id is in the map and
its sequential upload succeeds, the batch contributes exactly the
sequential-success outcome for each of its files (a contiguous run of the
final result list), and — for any mix of raising and non-raising
batches — the final per-file result list contains exactly one outcome per
file of the run. -/
theorem C6_sequential_fallback (folderIds : PathMap) (batchSize : Nat)
    (u r s : FileItem → UploadResult) (raises : Nat → Bool)
    (fileItems : List FileItem) (i : Nat) (batch : List FileItem)
    (hbs : 0 < batchSize)
    (hbatch : (chunks batchSize fileItems).get? i = some batch)
    (hraise : raises i = true)
    (hpar : ∀ it ∈ batch, (lookupPath folderIds it.parentKey).isSome = true)
    (hseq : ∀ it ∈ batch, (s it).isSuccess = true) :
    processSeqBatch folderIds s batch =
      batch.map (fun it => (it, FileOutcome.seqOk)) ∧
    batch.map (fun it => (it, FileOutcome.seqOk)) <:+:
      processAllBatches folderIds batchSize u r s raises fileItems ∧
    (processAllBatches folderIds batchSize u r s raises fileItems).map Prod.fst =
      fileItems := by
  have hseqeq : processSeqBatch folderIds s batch =
      batch.map (fun it => (it, FileOutcome.seqOk)) := by
    unfold processSeqBatch
    apply List.map_congr_left
    intro it hit
    obtain ⟨pid, hpid⟩ := Option.isSome_iff_exists.mp (hpar it hit)
    rw [hpid]
    dsimp only
    rw [hseq it hit]
    rfl
  obtain ⟨m, rfl⟩ : ∃ m, batchSize = m + 1 := ⟨batchSize - 1, by omega⟩
  refine ⟨hseqeq, ?_, ?_⟩
  · have hinf := processBatchesFrom_infix folderIds u r s raises
      (chunks (m + 1) fileItems) 0 i batch hbatch
    rw [Nat.zero_add] at hinf
    unfold processAllBatches
    have hb : processBatch folderIds u r s raises i batch =
        batch.map (fun it => (it, FileOutcome.seqOk)) := by
      unfold processBatch
      rw [if_pos hraise, hseqeq]
    rw [← hb]
    exact hinf
  · unfold processAllBatches
    rw [processBatchesFrom_fst, chunks_flatten]

/-- Witness for C6: a two-batch run (batch size one) whose second batch
raises in the parallel mechanism; its file is uploaded via the sequential
fallback and every file appears exactly once in the result list. -/
theorem C6_witness :
    processSeqBatch [([], "R"), (["sub"], "S")]
        (fun _ => UploadResult.uploaded "ok")
        [⟨["sub", "b.txt"], 20⟩] =
      [(⟨["sub", "b.txt"], 20⟩, FileOutcome.seqOk)] ∧
    [(⟨["sub", "b.txt"], 20⟩, FileOutcome.seqOk)] <:+:
      processAllBatches [([], "R"), (["sub"], "S")] 1
        (fun _ => UploadResult.uploaded "ok") (fun _ => UploadResult.exhausted)
        (fun _ => UploadResult.uploaded "ok") (fun i => i == 1)
        [⟨["a.txt"], 10⟩, ⟨["sub", "b.txt"], 20⟩] ∧
    (processAllBatches [([], "R"), (["sub"], "S")] 1
        (fun _ => UploadResult.uploaded "ok") (fun _ => UploadResult.exhausted)
        (fun _ => UploadResult.uploaded "ok") (fun i => i == 1)
        [⟨["a.txt"], 10⟩, ⟨["sub", "b.txt"], 20⟩]).map Prod.fst =
      [⟨["a.txt"], 10⟩, ⟨["sub", "b.txt"], 20⟩] :=
  C6_sequential_fallback [([], "R"), (["sub"], "S")] 1
    (fun _ => UploadResult.uploaded "ok") (fun _ => UploadResult.exhausted)
    (fun _ => UploadResult.uploaded "ok") (fun i => i == 1)
    [⟨["a.txt"], 10⟩, ⟨["sub", "b.txt"], 20⟩] 1 [⟨["sub", "b.txt"], 20⟩]
    (by decide) (by decide) (by decide)
    (by intro it hit; fin_cases hit; decide)
    (by intro it hit; fin_cases hit; decide)

/-! ## C3: hierarchy-builder lemmas -/

theorem lookupPath_insertPath_self (m : PathMap) (k : List String) (v : String) :
    lookupPath (insertPath m k v) k = some v := by
  induction m with
  | nil => simp [insertPath, lookupPath]
  | cons e rest ih =>
    by_cases he : e.1 = k
    · rw [insertPath, if_pos he]
      simp [lookupPath]
    · rw [insertPath, if_neg he]
      unfold lookupPath at ih ⊢
      rw [List.find?_cons, beq_eq_false_iff_ne.mpr he]
      exact ih

theorem lookupPath_insertPath_ne (m : PathMap) {k k' : List String} (v : String)
    (hne : k' ≠ k) : lookupPath (insertPath m k v) k' = lookupPath m k' := by
  have hkk : ((k, v).1 == k') = false :=
    beq_eq_false_iff_ne.mpr (fun hc => hne hc.symm)
  induction m with
  | nil =>
    unfold insertPath lookupPath
    rw [List.find?_cons, hkk]
  | cons e rest ih =>
    by_cases he : e.1 = k
    · rw [insertPath, if_pos he]
      unfold lookupPath
      rw [List.find?_cons, List.find?_cons, hkk]
      have h2 : (e.1 == k') = false := by
        rw [he]
        exact beq_eq_false_iff_ne.mpr (fun hc => hne hc.symm)
      rw [h2]
    · rw [insertPath, if_neg he]
      unfold lookupPath at ih ⊢
      rw [List.find?_cons, List.find?_cons]
      cases hf : (e.1 == k') with
      | true => rfl
      | false => exact ih

theorem lookupPath_insertPath_isSome (m : PathMap) (k k' : List String) (v : String)
    (h : (lookupPath m k').isSome = true) :
    (lookupPath (insertPath m k v) k').isSome = true := by
  by_cases hk : k' = k
  · subst hk
    rw [lookupPath_insertPath_self]
    rfl
  · rw [lookupPath_insertPath_ne m v hk]
    exact h

/-- Every member of every group produced by `addToGroups` has the group's
key as its parent path. -/
theorem addToGroups_key (gs : List (List String × List DirEntry)) (e : DirEntry)
    (hgs : ∀ g ∈ gs, ∀ x ∈ g.2, x.parentKey = g.1) :
    ∀ g ∈ addToGroups gs e, ∀ x ∈ g.2, x.parentKey = g.1 := by
  induction gs with
  | nil =>
    intro g hg x hx
    simp only [addToGroups, List.mem_singleton] at hg
    subst hg
    simp only [List.mem_singleton] at hx
    subst hx
    rfl
  | cons g0 rest ih =>
    intro g hg x hx
    rw [addToGroups] at hg
    by_cases hk : g0.1 = e.parentKey
    · rw [if_pos hk] at hg
      rcases List.mem_cons.mp hg with hg | hg
      · subst hg
        rcases List.mem_append.mp hx with hx | hx
        · exact hgs g0 (List.mem_cons_self g0 rest) x hx
        · simp only [List.mem_singleton] at hx
          subst hx
          exact hk.symm
      · exact hgs g (List.mem_cons_of_mem g0 hg) x hx
    · rw [if_neg hk] at hg
      rcases List.mem_cons.mp hg with hg | hg
      · subst hg
        exact hgs g (List.mem_cons_self g rest) x hx
      · exact ih (fun g' hg' => hgs g' (List.mem_cons_of_mem g0 hg')) g hg x hx

theorem foldl_addToGroups_key (l : List DirEntry) :
    ∀ (gs : List (List String × List DirEntry)),
      (∀ g ∈ gs, ∀ x ∈ g.2, x.parentKey = g.1) →
      ∀ g ∈ l.foldl addToGroups gs, ∀ x ∈ g.2, x.parentKey = g.1 := by
  induction l with
  | nil => intro gs hgs; exact hgs
  | cons e rest ih =>
    intro gs hgs
    rw [List.foldl_cons]
    exact ih (addToGroups gs e) (addToGroups_key gs e hgs)

/-- Every member of every group of `groupByParent l` has the group's key
as its parent path. -/
theorem groupByParent_key (l : List DirEntry) :
    ∀ g ∈ groupByParent l, ∀ x ∈ g.2, x.parentKey = g.1 :=
  foldl_addToGroups_key l [] (by intro g hg; simp at hg)

/-- `addToGroups` only stores elements satisfying any predicate that the
existing members and the inserted element satisfy. -/
theorem addToGroups_pred (C : DirEntry → Prop)
    (gs : List (List String × List DirEntry)) (e : DirEntry)
    (hgs : ∀ g ∈ gs, ∀ x ∈ g.2, C x) (he : C e) :
    ∀ g ∈ addToGroups gs e, ∀ x ∈ g.2, C x := by
  induction gs with
  | nil =>
    intro g hg x hx
    simp only [addToGroups, List.mem_singleton] at hg
    subst hg
    simp only [List.mem_singleton] at hx
    subst hx
    exact he
  | cons g0 rest ih =>
    intro g hg x hx
    rw [addToGroups] at hg
    by_cases hk : g0.1 = e.parentKey
    · rw [if_pos hk] at hg
      rcases List.mem_cons.mp hg with hg | hg
      · subst hg
        rcases List.mem_append.mp hx with hx | hx
        · exact hgs g0 (List.mem_cons_self g0 rest) x hx
        · simp only [List.mem_singleton] at hx
          subst hx
          exact he
      · exact hgs g (List.mem_cons_of_mem g0 hg) x hx
    · rw [if_neg hk] at hg
      rcases List.mem_cons.mp hg with hg | hg
      · subst hg
        exact hgs g (List.mem_cons_self g rest) x hx
      · exact ih (fun g' hg' => hgs g' (List.mem_cons_of_mem g0 hg')) g hg x hx

theorem foldl_addToGroups_pred (C : DirEntry → Prop) (l : List DirEntry) :
    ∀ (gs : List (List String × List DirEntry)),
      (∀ g ∈ gs, ∀ x ∈ g.2, C x) → (∀ e ∈ l, C e) →
      ∀ g ∈ l.foldl addToGroups gs, ∀ x ∈ g.2, C x := by
  induction l with
  | nil => intro gs hgs _; exact hgs
  | cons e rest ih =>
    intro gs hgs hl
    rw [List.foldl_cons]
    exact ih (addToGroups gs e)
      (addToGroups_pred C gs e hgs (hl e (List.mem_cons_self e rest)))
      (fun x hx => hl x (List.mem_cons_of_mem e hx))

/-- Members of `groupByParent l`'s groups come from `l`. -/
theorem groupByParent_pred (C : DirEntry → Prop) (l : List DirEntry)
    (hl : ∀ e ∈ l, C e) : ∀ g ∈ groupByParent l, ∀ x ∈ g.2, C x :=
  foldl_addToGroups_pred C l [] (by intro g hg; simp at hg) hl

/-- `addToGroups` keeps every previously stored element stored. -/
theorem addToGroups_mem_preserved (gs : List (List String × List DirEntry))
    (e : DirEntry) :
    ∀ x : DirEntry, (∃ g ∈ gs, x ∈ g.2) → ∃ g ∈ addToGroups gs e, x ∈ g.2 := by
  induction gs with
  | nil => intro x hx; obtain ⟨g, hg, _⟩ := hx; simp at hg
  | cons g0 rest ih =>
    intro x hx
    obtain ⟨g, hg, hxg⟩ := hx
    rw [addToGroups]
    by_cases hk : g0.1 = e.parentKey
    · rw [if_pos hk]
      rcases List.mem_cons.mp hg with hg | hg
      · have hxg0 : x ∈ g0.2 := hg ▸ hxg
        exact ⟨(g0.1, g0.2 ++ [e]), List.mem_cons_self _ _,
          List.mem_append.mpr (Or.inl hxg0)⟩
      · exact ⟨g, List.mem_cons_of_mem _ hg, hxg⟩
    · rw [if_neg hk]
      rcases List.mem_cons.mp hg with hg | hg
      · subst hg
        exact ⟨g, List.mem_cons_self _ _, hxg⟩
      · obtain ⟨g', hg', hxg'⟩ := ih x ⟨g, hg, hxg⟩
        exact ⟨g', List.mem_cons_of_mem _ hg', hxg'⟩

/-- `addToGroups` stores the inserted element. -/
theorem addToGroups_mem_new (gs : List (List String × List DirEntry)) (e : DirEntry) :
    ∃ g ∈ addToGroups gs e, e ∈ g.2 := by
  induction gs with
  | nil => exact ⟨(e.parentKey, [e]), List.mem_singleton.mpr rfl, List.mem_singleton.mpr rfl⟩
  | cons g0 rest ih =>
    rw [addToGroups]
    by_cases hk : g0.1 = e.parentKey
    · rw [if_pos hk]
      exact ⟨(g0.1, g0.2 ++ [e]), List.mem_cons_self _ _,
        List.mem_append.mpr (Or.inr (List.mem_singleton.mpr rfl))⟩
    · rw [if_neg hk]
      obtain ⟨g', hg', he'⟩ := ih
      exact ⟨g', List.mem_cons_of_mem _ hg', he'⟩

theorem foldl_addToGroups_mem (l : List DirEntry) :
    ∀ (gs : List (List String × List DirEntry)) (x : DirEntry),
      ((∃ g ∈ gs, x ∈ g.2) ∨ x ∈ l) →
      ∃ g ∈ l.foldl addToGroups gs, x ∈ g.2 := by
  induction l with
  | nil =>
    intro gs x hx
    rcases hx with hx | hx
    · exact hx
    · simp at hx
  | cons e rest ih =>
    intro gs x hx
    rw [List.foldl_cons]
    rcases hx with hx | hx
    · exact ih (addToGroups gs e) x (Or.inl (addToGroups_mem_preserved gs e x hx))
    · rcases List.mem_cons.mp hx with hx | hx
      · subst hx
        exact ih (addToGroups gs x) x (Or.inl (addToGroups_mem_new gs x))
      · exact ih (addToGroups gs e) x (Or.inr hx)

/-- Every element of `l` is stored in a group of `groupByParent l`. -/
theorem groupByParent_mem (l : List DirEntry) (x : DirEntry) (hx : x ∈ l) :
    ∃ g ∈ groupByParent l, x ∈ g.2 :=
  foldl_addToGroups_mem l [] x (Or.inr hx)

/-- Keys after `addToGroups`: an old key or the inserted entry's parent. -/
theorem addToGroups_keys (gs : List (List String × List DirEntry)) (e : DirEntry) :
    ∀ g' ∈ addToGroups gs e, (∃ g'' ∈ gs, g'.1 = g''.1) ∨ g'.1 = e.parentKey := by
  induction gs with
  | nil =>
    intro g' hg'
    simp only [addToGroups, List.mem_singleton] at hg'
    subst hg'
    exact Or.inr rfl
  | cons g0 rest ih =>
    intro g' hg'
    rw [addToGroups] at hg'
    by_cases hk : g0.1 = e.parentKey
    · rw [if_pos hk] at hg'
      rcases List.mem_cons.mp hg' with hg' | hg'
      · subst hg'
        exact Or.inl ⟨g0, List.mem_cons_self _ _, rfl⟩
      · exact Or.inl ⟨g', List.mem_cons_of_mem _ hg', rfl⟩
    · rw [if_neg hk] at hg'
      rcases List.mem_cons.mp hg' with hg' | hg'
      · subst hg'
        exact Or.inl ⟨g', List.mem_cons_self _ _, rfl⟩
      · rcases ih g' hg' with ⟨g'', hg'', heq⟩ | heq
        · exact Or.inl ⟨g'', List.mem_cons_of_mem _ hg'', heq⟩
        · exact Or.inr heq

/-- `addToGroups` keeps the groups ordered by key depth when the inserted
entry's parent is at least as deep as every present key. -/
theorem addToGroups_pairwise (gs : List (List String × List DirEntry)) (e : DirEntry)
    (hpw : List.Pairwise keyLenLe gs)
    (hle : ∀ g ∈ gs, g.1.length ≤ e.parentKey.length) :
    List.Pairwise keyLenLe (addToGroups gs e) := by
  induction gs with
  | nil => simp [addToGroups, List.pairwise_singleton]
  | cons g0 rest ih =>
    rw [addToGroups]
    obtain ⟨hhead, htail⟩ := List.pairwise_cons.mp hpw
    by_cases hk : g0.1 = e.parentKey
    · rw [if_pos hk]
      exact List.pairwise_cons.mpr ⟨fun g' hg' => hhead g' hg', htail⟩
    · rw [if_neg hk]
      refine List.pairwise_cons.mpr ⟨?_, ih htail
        (fun g hg => hle g (List.mem_cons_of_mem _ hg))⟩
      intro g' hg'
      rcases addToGroups_keys rest e g' hg' with ⟨g'', hg'', heq⟩ | heq
      · unfold keyLenLe
        rw [heq]
        exact hhead g'' hg''
      · unfold keyLenLe
        rw [heq]
        exact hle g0 (List.mem_cons_self _ _)

/-- Folding depth-sorted entries keeps group keys ordered by depth. -/
theorem foldl_addToGroups_pairwise (l : List DirEntry) :
    ∀ (gs : List (List String × List DirEntry)),
      List.Pairwise keyLenLe gs →
      (∀ g ∈ gs, ∀ e ∈ l, g.1.length ≤ e.parentKey.length) →
      List.Pairwise depthLe l →
      List.Pairwise keyLenLe (l.foldl addToGroups gs) := by
  induction l with
  | nil => intro gs hpw _ _; exact hpw
  | cons e rest ih =>
    intro gs hpw hle hsorted
    obtain ⟨hhead, htail⟩ := List.pairwise_cons.mp hsorted
    rw [List.foldl_cons]
    refine ih (addToGroups gs e)
      (addToGroups_pairwise gs e hpw
        (fun g hg => hle g hg e (List.mem_cons_self _ _))) ?_ htail
    intro g hg e' he'
    rcases addToGroups_keys gs e g hg with ⟨g'', hg'', heq⟩ | heq
    · rw [heq]
      exact hle g'' hg'' e' (List.mem_cons_of_mem _ he')
    · rw [heq]
      unfold DirEntry.parentKey
      rw [List.length_dropLast, List.length_dropLast]
      have := hhead e' he'
      unfold depthLe at this
      omega

/-- The groups of depth-sorted entries are ordered by key depth. -/
theorem groupByParent_pairwise (l : List DirEntry)
    (hsorted : List.Pairwise depthLe l) :
    List.Pairwise keyLenLe (groupByParent l) :=
  foldl_addToGroups_pairwise l [] List.Pairwise.nil (by intro g hg; simp at hg) hsorted

/-- Groups never have an empty member list. -/
theorem addToGroups_ne_nil (gs : List (List String × List DirEntry)) (e : DirEntry)
    (hgs : ∀ g ∈ gs, g.2 ≠ []) : ∀ g ∈ addToGroups gs e, g.2 ≠ [] := by
  induction gs with
  | nil =>
    intro g hg
    simp only [addToGroups, List.mem_singleton] at hg
    subst hg
    simp
  | cons g0 rest ih =>
    intro g hg
    rw [addToGroups] at hg
    by_cases hk : g0.1 = e.parentKey
    · rw [if_pos hk] at hg
      rcases List.mem_cons.mp hg with hg | hg
      · subst hg
        simp
      · exact hgs g (List.mem_cons_of_mem _ hg)
    · rw [if_neg hk] at hg
      rcases List.mem_cons.mp hg with hg | hg
      · subst hg
        exact hgs g (List.mem_cons_self _ _)
      · exact ih (fun g' hg' => hgs g' (List.mem_cons_of_mem _ hg')) g hg

theorem foldl_addToGroups_ne_nil (l : List DirEntry) :
    ∀ (gs : List (List String × List DirEntry)),
      (∀ g ∈ gs, g.2 ≠ []) → ∀ g ∈ l.foldl addToGroups gs, g.2 ≠ [] := by
  induction l with
  | nil => intro gs hgs; exact hgs
  | cons e rest ih =>
    intro gs hgs
    rw [List.foldl_cons]
    exact ih (addToGroups gs e) (addToGroups_ne_nil gs e hgs)

theorem groupByParent_ne_nil (l : List DirEntry) :
    ∀ g ∈ groupByParent l, g.2 ≠ [] :=
  foldl_addToGroups_ne_nil l [] (by intro g hg; simp at hg)

/-- Effect of one group's creation fold on the path map: previously
present keys stay present, and (when `create` always succeeds) every
processed entry's path becomes present. -/
theorem groupStep_fold_map (create : List String → String → Option String)
    (pid : String) (fb : Bool)
    (hcreate : ∀ p q, (create p q).isSome = true) :
    ∀ (items : List DirEntry) (acc : PathMap × List HierEvent),
      (∀ k', (lookupPath acc.1 k').isSome = true →
        (lookupPath (items.foldl (groupStep create pid fb) acc).1 k').isSome = true) ∧
      (∀ e ∈ items,
        (lookupPath (items.foldl (groupStep create pid fb) acc).1 e.relPath).isSome
          = true) := by
  intro items
  induction items with
  | nil =>
    intro acc
    exact ⟨fun k' h => h, by intro e he; simp at he⟩
  | cons e rest ih =>
    intro acc
    rw [List.foldl_cons]
    obtain ⟨fid, hfid⟩ := Option.isSome_iff_exists.mp (hcreate e.relPath pid)
    have hstep : groupStep create pid fb acc e =
        (insertPath acc.1 e.relPath fid, acc.2 ++ [⟨e.relPath, pid, fb⟩]) := by
      unfold groupStep
      rw [hfid]
    rw [hstep]
    obtain ⟨i1, i2⟩ := ih (insertPath acc.1 e.relPath fid, acc.2 ++ [⟨e.relPath, pid, fb⟩])
    refine ⟨?_, ?_⟩
    · intro k' hk'
      exact i1 k' (lookupPath_insertPath_isSome acc.1 e.relPath k' fid hk')
    · intro e' he'
      rcases List.mem_cons.mp he' with he' | he'
      · subst he'
        exact i1 e'.relPath (by rw [lookupPath_insertPath_self]; rfl)
      · exact i2 e' he'

/-- Every event recorded by one group's creation fold carries the group's
resolved parent id and fallback flag. -/
theorem groupStep_fold_events (create : List String → String → Option String)
    (pid : String) (fb : Bool) :
    ∀ (items : List DirEntry) (acc : PathMap × List HierEvent),
      ∀ ev ∈ (items.foldl (groupStep create pid fb) acc).2,
        ev ∈ acc.2 ∨ (ev.parentIdUsed = pid ∧ ev.usedRootFallback = fb) := by
  intro items
  induction items with
  | nil => intro acc ev hev; exact Or.inl hev
  | cons e rest ih =>
    intro acc ev hev
    rw [List.foldl_cons] at hev
    cases hc : create e.relPath pid with
    | none =>
      have hstep : groupStep create pid fb acc e = acc := by
        unfold groupStep
        rw [hc]
      rw [hstep] at hev
      exact ih acc ev hev
    | some fid =>
      have hstep : groupStep create pid fb acc e =
          (insertPath acc.1 e.relPath fid, acc.2 ++ [⟨e.relPath, pid, fb⟩]) := by
        unfold groupStep
        rw [hc]
      rw [hstep] at hev
      rcases ih _ ev hev with hev' | hev'
      · rcases List.mem_append.mp hev' with hev' | hev'
        · exact Or.inl hev'
        · simp only [List.mem_singleton] at hev'
          subst hev'
          exact Or.inr ⟨rfl, rfl⟩
      · exact Or.inr hev'

/-- `processGroup` in terms of its resolved parent id: map effects. -/
theorem processGroup_map (rootId : String)
    (create : List String → String → Option String)
    (hcreate : ∀ p q, (create p q).isSome = true)
    (m : PathMap) (g : List String × List DirEntry) :
    (∀ k', (lookupPath m k').isSome = true →
      (lookupPath (processGroup rootId create m g).1 k').isSome = true) ∧
    (∀ e ∈ g.2,
      (lookupPath (processGroup rootId create m g).1 e.relPath).isSome = true) := by
  unfold processGroup
  exact groupStep_fold_map create _ _ hcreate g.2 (m, [])

/-- `processGroup`'s events: resolved parent id and fallback flag. -/
theorem processGroup_events (rootId : String)
    (create : List String → String → Option String)
    (m : PathMap) (g : List String × List DirEntry) :
    ∀ ev ∈ (processGroup rootId create m g).2,
      ev.parentIdUsed = (match lookupPath m g.1 with
        | some p => p
        | none => rootId) ∧
      ev.usedRootFallback = (lookupPath m g.1).isNone := by
  intro ev hev
  unfold processGroup at hev
  rcases groupStep_fold_events create _ _ g.2 (m, []) ev hev with hev' | hev'
  · simp at hev'
  · exact hev'

/-- Invariant of the outer loop over groups: with the root path seeded,
all creations succeeding, keys ordered by depth and every non-root key
backed by an entry of a strictly shallower group, no group ever resolves
its parent through the root-substitution fallback. -/
theorem hier_fold_inv (rootId : String)
    (create : List String → String → Option String)
    (hcreate : ∀ p q, (create p q).isSome = true) :
    ∀ (suf pre : List (List String × List DirEntry)) (m : PathMap)
      (evs : List HierEvent),
      List.Pairwise keyLenLe (pre ++ suf) →
      (∀ g ∈ pre ++ suf, g.1 = [] ∨ ∃ g' ∈ pre ++ suf, ∃ x ∈ g'.2,
        x.relPath = g.1 ∧ g'.1.length < g.1.length) →
      (lookupPath m []).isSome = true →
      (∀ g ∈ pre, ∀ x ∈ g.2, (lookupPath m x.relPath).isSome = true) →
      (∀ ev ∈ evs, ev.usedRootFallback = false) →
      ∀ ev ∈ (suf.foldl (hierStep rootId create) (m, evs)).2,
        ev.usedRootFallback = false := by
  intro suf
  induction suf with
  | nil => intro pre m evs _ _ _ _ hevs; exact hevs
  | cons g rest ih =>
    intro pre m evs hpw hclosed hroot hpre hevs
    rw [List.foldl_cons]
    have hgmem : g ∈ pre ++ g :: rest :=
      List.mem_append.mpr (Or.inr (List.mem_cons_self _ _))
    have hlook : (lookupPath m g.1).isSome = true := by
      rcases hclosed g hgmem with hnil | ⟨g', hg', x, hx, hxeq, hlen⟩
      · rw [hnil]; exact hroot
      · have hg'pre : g' ∈ pre := by
          rcases List.mem_append.mp hg' with h | h
          · exact h
          · exfalso
            rcases List.mem_cons.mp h with h | h
            · rw [h] at hlen
              exact Nat.lt_irrefl _ hlen
            · obtain ⟨-, hpw2, -⟩ := List.pairwise_append.mp hpw
              obtain ⟨hgrel, -⟩ := List.pairwise_cons.mp hpw2
              have := hgrel g' h
              unfold keyLenLe at this
              omega
        have := hpre g' hg'pre x hx
        rw [hxeq] at this
        exact this
    have hfb : (lookupPath m g.1).isNone = false := by
      cases hl : lookupPath m g.1 with
      | none => rw [hl] at hlook; simp at hlook
      | some p => rfl
    have hstep : hierStep rootId create (m, evs) g =
        ((processGroup rootId create m g).1, evs ++ (processGroup rootId create m g).2) := by
      unfold hierStep
      rfl
    rw [hstep]
    have happ : (pre ++ [g]) ++ rest = pre ++ g :: rest := by simp
    obtain ⟨hmap1, hmap2⟩ := processGroup_map rootId create hcreate m g
    refine ih (pre ++ [g]) (processGroup rootId create m g).1
      (evs ++ (processGroup rootId create m g).2) (by rw [happ]; exact hpw)
      (by rw [happ]; exact hclosed) (hmap1 [] hroot) ?_ ?_
    · intro g'' hg'' x hx
      rcases List.mem_append.mp hg'' with h | h
      · exact hmap1 x.relPath (hpre g'' h x hx)
      · simp only [List.mem_singleton] at h
        subst h
        exact hmap2 x hx
    · intro ev hev
      rcases List.mem_append.mp hev with h | h
      · exact hevs ev h
      · have := (processGroup_events rootId create m g ev h).2
        rw [this, hfb]

/-- **C3.** At every group the hierarchy builder processes, the
path-to-remote-id map already contains the group's parent path: the root
is seeded before the loop and the depth-ascending sort guarantees every
entry's parent was processed first, so (whenever the directory entries are
well-formed — non-empty relative paths closed under taking parents — and
every creation succeeds) the root-substitution fallback never fires.  And
should a parent path nevertheless be absent from the map, the builder
substitutes the run's root folder id for that group and continues with a
warning instead of aborting. -/
theorem C3_parent_present_and_root_fallback (rootId : String)
    (create : List String → String → Option String) :
    (∀ entries : List DirEntry,
      (∀ e ∈ entries, e.relPath ≠ []) →
      (∀ e ∈ entries, e.parentKey ≠ [] → ∃ e' ∈ entries, e'.relPath = e.parentKey) →
      (∀ p q, (create p q).isSome = true) →
      ∀ ev ∈ (buildHierarchy rootId create entries).2, ev.usedRootFallback = false) ∧
    (∀ (m : PathMap) (g : List String × List DirEntry),
      lookupPath m g.1 = none →
      ∀ ev ∈ (processGroup rootId create m g).2,
        ev.parentIdUsed = rootId ∧ ev.usedRootFallback = true) := by
  constructor
  · intro entries hne hclosed hcreate
    have hperm := List.perm_insertionSort depthLe entries
    have hsorted : List.Pairwise depthLe (entries.insertionSort depthLe) :=
      List.sorted_insertionSort depthLe entries
    set sorted := entries.insertionSort depthLe with hsorted_def
    have hne' : ∀ e ∈ sorted, e.relPath ≠ [] :=
      fun e he => hne e (hperm.mem_iff.mp he)
    have hclosed' : ∀ e ∈ sorted, e.parentKey ≠ [] →
        ∃ e' ∈ sorted, e'.relPath = e.parentKey := by
      intro e he hpk
      obtain ⟨e', he', heq⟩ := hclosed e (hperm.mem_iff.mp he) hpk
      exact ⟨e', hperm.mem_iff.mpr he', heq⟩
    have HK := groupByParent_key sorted
    have Hsub := groupByParent_pred (fun x => x ∈ sorted) sorted (fun x hx => hx)
    have HPW := groupByParent_pairwise sorted hsorted
    have Hne := groupByParent_ne_nil sorted
    have Hclosed : ∀ g ∈ groupByParent sorted, g.1 = [] ∨
        ∃ g' ∈ groupByParent sorted, ∃ x ∈ g'.2,
          x.relPath = g.1 ∧ g'.1.length < g.1.length := by
      intro g hg
      by_cases hk : g.1 = []
      · exact Or.inl hk
      · refine Or.inr ?_
        obtain ⟨e, he⟩ := List.exists_mem_of_ne_nil g.2 (Hne g hg)
        have hek : e.parentKey = g.1 := HK g hg e he
        have hes : e ∈ sorted := Hsub g hg e he
        obtain ⟨x, hx, hxeq⟩ := hclosed' e hes (by rw [hek]; exact hk)
        rw [hek] at hxeq
        obtain ⟨g', hg', hxg'⟩ := groupByParent_mem sorted x hx
        refine ⟨g', hg', x, hxg', hxeq, ?_⟩
        have hxk : x.parentKey = g'.1 := HK g' hg' x hxg'
        have hglen : g.1.length ≠ 0 := fun hc => hk (List.eq_nil_of_length_eq_zero hc)
        rw [← hxk]
        unfold DirEntry.parentKey
        rw [List.length_dropLast, hxeq]
        omega
    intro ev hev
    unfold buildHierarchy at hev
    rw [← hsorted_def] at hev
    exact hier_fold_inv rootId create hcreate (groupByParent sorted) [] ([([], rootId)])
      [] (by simpa using HPW) (by simpa using Hclosed) rfl
      (by intro g hg; simp at hg) (by intro ev' hev'; simp at hev') ev hev
  · intro m g hlook ev hev
    have := processGroup_events rootId create m g ev hev
    rw [hlook] at this
    exact ⟨this.1, this.2⟩

/-- Witness for C3: a two-level tree (all creations succeeding) builds
with no fallback event, and a group whose parent path is missing from the
map is created under the root id with the warning flag set. -/
theorem C3_witness :
    ((buildHierarchy "ROOT" (fun _ _ => some "C")
        [⟨["a"]⟩, ⟨["a", "x"]⟩]).2.all (fun ev => !ev.usedRootFallback)) = true ∧
    ((processGroup "ROOT" (fun _ _ => some "C") [([], "ROOT")]
        (["zz"], [⟨["zz", "a"]⟩])).2.all
      (fun ev => ev.parentIdUsed == "ROOT" && ev.usedRootFallback)) = true := by
  constructor
  · rw [List.all_eq_true]
    intro ev hev
    have := (C3_parent_present_and_root_fallback "ROOT" (fun _ _ => some "C")).1
      [⟨["a"]⟩, ⟨["a", "x"]⟩] (by decide) (by decide) (fun p q => rfl) ev hev
    rw [this]
    rfl
  · rw [List.all_eq_true]
    intro ev hev
    have := (C3_parent_present_and_root_fallback "ROOT" (fun _ _ => some "C")).2
      [([], "ROOT")] (["zz"], [⟨["zz", "a"]⟩]) (by decide) ev hev
    rw [this.1, this.2]
    decide

end GDriveSpec
